import Mathlib

/-!
Verification of the question-routing and parameter-resolution pipeline of the
cx-assistant-mcp repository (src/routing.py, src/lookup.py, src/server.py).

The Python source is shallowly embedded: Python dicts become association
lists, Python `None` becomes `Option`/an explicit `none` constructor, the
fixed regular expressions of routing.py become explicit character-list
scanners, and the remote HTTP lookups become oracle functions supplied as
arguments (returning `Except` so that a lookup may also raise, as the real
ones can).  Each definition mirrors one Python function and keeps its name.
-/

namespace CxAssist

/-! ## Python string primitives -/

/-- Python word character for `\b` word boundaries: `[A-Za-z0-9_]`
(the messages handled here are ASCII). -/
def isWordChar (c : Char) : Bool := c.isAlphanum || c == '_'

/-- Python `\s` / `str.strip` whitespace: space, tab, newline, CR, FF, VT. -/
def isSpaceChar (c : Char) : Bool :=
  c == ' ' || c == '\t' || c == '\n' || c == '\r' || c == '\x0b' || c == '\x0c'

/-- Python `str.lower` on ASCII text. -/
def lowerStr (s : String) : String := String.mk (s.data.map Char.toLower)

/-- Python `str.upper` on ASCII text. -/
def upperStr (s : String) : String := String.mk (s.data.map Char.toUpper)

/-- Python `str.strip()`: drop whitespace from both ends. -/
def stripChars (cs : List Char) : List Char :=
  ((cs.dropWhile isSpaceChar).reverse.dropWhile isSpaceChar).reverse

def stripStr (s : String) : String := String.mk (stripChars s.data)

/-- Occurrence of `needle` as a contiguous run inside `hay`. -/
def subIn (needle : List Char) : List Char → Bool
  | [] => needle.isEmpty
  | c :: rest => needle.isPrefixOf (c :: rest) || subIn needle rest

/-- Python `needle in hay` for strings (substring containment). -/
def pyIn (needle hay : String) : Bool := subIn needle.data hay.data

/-! ## Dicts as association lists (insertion-ordered, like Python dicts) -/

/-- Python `d[k] = v`: replace in place if the key exists, else append. -/
def dictInsert (m : List (String × α)) (k : String) (v : α) : List (String × α) :=
  match m with
  | [] => [(k, v)]
  | (k', v') :: rest => if k' == k then (k, v) :: rest else (k', v') :: dictInsert rest k v

def dictKeys (m : List (String × α)) : List String := m.map Prod.fst

/-! ## Data model -/

/-- A Python value reachable in a parameter's `value` field: a string, a list,
or `None` (the nullability that the C9 invariant is about). -/
inductive Val where
  | none
  | str (s : String)
  | list (xs : List Val)

def Val.isList : Val → Bool
  | .list _ => true
  | _ => false

/-- An option returned by a remote lookup, as normalised by lookup.py:
`{"label": ..., "value": ..., "_is_primary": ...}`.  `search_customers` can
hand through an explicit JSON `null` in the value field, hence
`value : Option String`. -/
structure Opt where
  label : String
  value : Option String
  isPrimary : Bool := false

def Opt.valueVal (o : Opt) : Val :=
  match o.value with
  | Option.none => Val.none
  | Option.some s => Val.str s

/-- Python `(opt.get("value") or "")`. -/
def Opt.valueOrEmpty (o : Opt) : String := o.value.getD ""

/-- A non-`None` entry of the extraction map: either a
`{"label", "value", "_needs_resolution"?, "hidden"?}` dict or the bare
`{"_auto_resolve": True}` marker. -/
inductive ExtractedVal where
  | pair (label : String) (value : Val) (needsResolution : Bool) (hidden : Bool)
  | auto

/-- The extraction result map: Python `dict` of name to dict-or-`None`. -/
abbrev EMap := List (String × Option ExtractedVal)

/-- A finalised parameter in the resolved map
(`{"label": ..., "value": ..., "hidden": ...}`). -/
structure ResolvedParam where
  label : String
  value : Val
  hidden : Bool

abbrev PMap := List (String × ResolvedParam)

/-- Static select option (`{"label": ..., "value": ...}`) from the catalog or
the `STATIC_OPTIONS` table. -/
structure SOpt where
  label : String
  value : String
deriving DecidableEq

/-- One field of a catalog `api.params` binding: an optional constant
`value`, an optional `fieldName` source, an optional `transform`. -/
structure FieldSpec where
  value : Option Val := Option.none
  fieldName : Option String := Option.none
  transform : Option String := Option.none

/-- A catalog `api` descriptor.  `params` maps body keys to field specs
(`Option.none` standing for a non-dict spec, skipped by the code);
`transform` is the raw transform string inspected by
`_uses_summary_as_value`. -/
structure ApiSpec where
  params : List (String × Option FieldSpec) := []
  transform : String := ""

/-- A catalog parameter definition. -/
structure ParamDef where
  name : String
  subtype : String := ""
  options : List SOpt := []
  multiple : Bool := false
  api : Option ApiSpec := Option.none

/-- A catalog question definition (the fields the pipeline reads). -/
structure Question where
  id : String
  label : String := ""
  questionTemplate : String := ""
  agent : String := ""
  backendQuestionId : String := ""
  parameters : List ParamDef := []

/-! ## lookup.py: PRODUCTS and STATIC_OPTIONS tables -/

/-- lookup.py `PRODUCTS`: API value to human label, in dict order. -/
def PRODUCTS : List (String × String) := [
  ("COLLAB", "Collaboration"),
  ("CROSSWORK_CLOUD", "Crosswork Cloud"),
  ("CROSSWORK_NETWORK_CONTROLLER", "Crosswork Network Controller"),
  ("DEFENSE_ORCHESTRATOR", "Defense Orchestrator"),
  ("DUO", "Duo"),
  ("ENTERPRISE_SWITCHING", "Enterprise Switching"),
  ("EPP", "Endpoint Protection Platform (EPP)"),
  ("EVOLVED_PROGRAMMABLE_NETWORK_MANAGER", "Evolved Programmable Network Manager"),
  ("INTERSIGHT", "Intersight"),
  ("IOS_XR_FLEXIBLE_CONSUMPTION_MODEL", "IOS XR Flexible Consumption Model"),
  ("ISE", "Identity Services Engine (ISE)"),
  ("NETWORK_SERVICE_ORCHESTRATOR", "Network Service Orchestrator"),
  ("NX3K", "Nexus 3k"),
  ("NX9K", "Nexus 9k"),
  ("SAN", "Storage Area Network (SAN)"),
  ("SD-WAN", "Software-Defined Wide Area Network (SDWAN)"),
  ("SECURE_CLIENT", "Secure Client"),
  ("SECURE_EMAIL", "Secure Email"),
  ("SECURE_FIREWALL", "Secure Firewall"),
  ("SECURE_MALWARE_ANALYTICS", "Secure Malware Analytics"),
  ("SECURE_WEB_APPLIANCE", "Secure Web Appliance"),
  ("UMBRELLA", "Umbrella"),
  ("VULNERABILITY_MANAGEMENT", "Vulnerability Management"),
  ("WIRELESS", "Wireless")]

/-- lookup.py `STATIC_OPTIONS`. -/
def STATIC_OPTIONS : List (String × List SOpt) := [
  ("service", [⟨"Advanced Services", "advanced services"⟩,
               ⟨"Technical Services", "technical services"⟩]),
  ("tacSentimentTimePeriod", [⟨"Current quarter", "current quarter"⟩,
                              ⟨"Last quarter", "last quarter"⟩,
                              ⟨"Previous 2 quarters", "last 2 quarters"⟩]),
  ("timeframe", [⟨"Current quarter", "current quarter"⟩,
                 ⟨"Last quarter", "last quarter"⟩,
                 ⟨"Last 3 quarters", "last 3 quarters"⟩,
                 ⟨"1 year", "1 year"⟩]),
  ("subscriptionTimeframe", [⟨"0-90 days", "0-90 days"⟩,
                             ⟨"91-180 days", "91-180 days"⟩,
                             ⟨"181-360 days", "181-360 days"⟩]),
  ("comparison", [⟨"Region", "region"⟩,
                  ⟨"Market Segment", "market segment"⟩,
                  ⟨"Industry Vertical", "industry vertical"⟩]),
  ("region", [⟨"Americas", "Americas"⟩, ⟨"EMEAR", "EMEAR"⟩, ⟨"APJC", "APJC"⟩]),
  ("forecastStatuses", [⟨"Commit", "Commit"⟩, ⟨"Upside", "Upside"⟩,
                        ⟨"Most Likely", "Most Likely"⟩]),
  ("metricType", [⟨"Feature adoption metrics", "AdoptionMetrics"⟩,
                  ⟨"Usage/scale metrics", "UsageMetrics"⟩])]

/-- lookup.py `resolve_static`: exact pass over all options (value then
label), then a substring pass (label containment checked, then value
containment, per option). -/
def resolve_static (param_name text : String) : Option (String × String) :=
  match STATIC_OPTIONS.lookup param_name with
  | Option.none => Option.none
  | Option.some options =>
    if options.isEmpty then Option.none
    else
      let t := lowerStr (stripStr text)
      match options.find? (fun opt => t == lowerStr opt.value || t == lowerStr opt.label) with
      | Option.some opt => Option.some (opt.value, opt.label)
      | Option.none =>
        match options.find? (fun opt =>
            (pyIn t (lowerStr opt.label) || pyIn (lowerStr opt.label) t)
            || (pyIn t (lowerStr opt.value) || pyIn (lowerStr opt.value) t)) with
        | Option.some opt => Option.some (opt.value, opt.label)
        | Option.none => Option.none

/-- The static fallback matcher exactly as the specification words it:
exact tier over all options first, then substring tier, the value text
compared before the label text in each tier. -/
def resolve_static_specOrder (param_name text : String) : Option (String × String) :=
  match STATIC_OPTIONS.lookup param_name with
  | Option.none => Option.none
  | Option.some options =>
    if options.isEmpty then Option.none
    else
      let t := lowerStr (stripStr text)
      match options.find? (fun opt => t == lowerStr opt.value || t == lowerStr opt.label) with
      | Option.some opt => Option.some (opt.value, opt.label)
      | Option.none =>
        match options.find? (fun opt =>
            (pyIn t (lowerStr opt.value) || pyIn (lowerStr opt.value) t)
            || (pyIn t (lowerStr opt.label) || pyIn (lowerStr opt.label) t)) with
        | Option.some opt => Option.some (opt.value, opt.label)
        | Option.none => Option.none

/-! ## Regular-expression scanners (routing.py patterns)

Python's `re.search` scans left to right and returns the first position at
which the whole pattern matches.  Each fixed pattern of routing.py is
embedded as a "match at the head of this suffix" function, plus the generic
left-to-right scanner `scan` that tracks whether the previous character was
a word character (for the leading `\b`). -/

/-- Length of the maximal leading run of characters satisfying `p`. -/
def runLen (p : Char → Bool) : List Char → Nat
  | [] => 0
  | c :: rest => if p c then runLen p rest + 1 else 0

/-- `\b` after a just-consumed word character: next char absent or non-word. -/
def boundaryAfter : List Char → Bool
  | [] => true
  | c :: _ => !(isWordChar c)

/-- Left-to-right first-match scanner.  `here` attempts the pattern at the
head of the remaining suffix; it is only tried at positions preceded by a
non-word character (the patterns all begin with `\b` followed by a word
character). -/
def scan (here : List Char → Option α) : Bool → List Char → Option α
  | _, [] => Option.none
  | prevWord, c :: rest =>
    if !prevWord then
      match here (c :: rest) with
      | Option.some r => Option.some r
      | Option.none => scan here (isWordChar c) rest
    else scan here (isWordChar c) rest

/-- `D-\d+\b` (case-insensitive) at the head: returns the match length. -/
def dealHere : List Char → Option Nat
  | c1 :: c2 :: rest =>
    if (c1 == 'D' || c1 == 'd') && c2 == '-' then
      let d := runLen Char.isDigit rest
      if 0 < d && boundaryAfter (rest.drop d) then Option.some (2 + d) else Option.none
    else Option.none
  | _ => Option.none

/-- First match of `\bD-\d+\b` (IGNORECASE), as the matched text. -/
def findDealId (cs : List Char) : Option (List Char) :=
  scan (fun s => (dealHere s).map (s.take ·)) false cs

/-- `\d{8,}\b` at the head (the greedy run must end at a word boundary). -/
def oppHere (cs : List Char) : Option (List Char) :=
  let d := runLen Char.isDigit cs
  if 8 ≤ d && boundaryAfter (cs.drop d) then Option.some (cs.take d) else Option.none

/-- First match of `\b\d{8,}\b`. -/
def findOpportunityId (cs : List Char) : Option (List Char) := scan oppHere false cs

def isUpperAlnum (c : Char) : Bool := ('A' ≤ c && c ≤ 'Z') || c.isDigit

/-- `([A-Z0-9]{6,})\b` at the head. -/
def accountHere (cs : List Char) : Option (List Char) :=
  let d := runLen isUpperAlnum cs
  if 6 ≤ d && boundaryAfter (cs.drop d) then Option.some (cs.take d) else Option.none

/-- First match of `\b([A-Z0-9]{6,})\b`. -/
def findAccountId (cs : List Char) : Option (List Char) := scan accountHere false cs

/-- `(\d{5,6})\b` at the head: a maximal digit run of exactly 5 or 6 digits
(a run of 7 or more cannot match: after backtracking the next character is
still a digit, so the trailing `\b` fails). -/
def cavHere (cs : List Char) : Option (List Char) :=
  let d := runLen Char.isDigit cs
  if (d == 5 || d == 6) && boundaryAfter (cs.drop d) then Option.some (cs.take d)
  else Option.none

/-- First match of `\b(\d{5,6})\b`. -/
def findCavId (cs : List Char) : Option (List Char) := scan cavHere false cs

/-- ASCII letter (`[A-Za-z]`). -/
def isAsciiAlpha (c : Char) : Bool := ('A' ≤ c && c ≤ 'Z') || ('a' ≤ c && c ≤ 'z')

/-- Shared tail `\s+([A-Za-z][^\n,?]+)` of the for/of customer pattern. -/
def spacedNameTail (tail : List Char) : Option (List Char) :=
  let sp := runLen isSpaceChar tail
  if 0 < sp then
    match tail.drop sp with
    | c :: rest2 =>
      if isAsciiAlpha c then
        let body := runLen (fun ch => !(ch == '\n' || ch == ',' || ch == '?')) rest2
        if 0 < body then Option.some (c :: rest2.take body) else Option.none
      else Option.none
    | [] => Option.none
  else Option.none

/-- `(?:for|of)\s+([A-Za-z][^\n,?]+)` at the head (group 1). -/
def forOfHere : List Char → Option (List Char)
  | 'f' :: 'o' :: 'r' :: tail => spacedNameTail tail
  | 'o' :: 'f' :: tail => spacedNameTail tail
  | _ => Option.none

/-- First match of `\b(?:for|of)\s+([A-Za-z][^\n,?]+)`, returning group 1. -/
def findForOfName (cs : List Char) : Option (List Char) := scan forOfHere false cs

/-- Case-insensitive literal prefix test (`pat` given in lowercase). -/
def ciPrefix (pat : String) (cs : List Char) : Bool :=
  pat.data.length ≤ cs.length && (cs.take pat.data.length).map Char.toLower == pat.data

/-- The trailing-keyword alternatives of routing.py's customer suffix strip. -/
def SUFFIX_WORDS : List String := ["cav bu", "product", "deal", "service"]

/-- Does `\s+(CAV BU|product|deal|service)\s*$` (IGNORECASE) match the whole
remaining suffix? -/
def suffixHere (cs : List Char) : Bool :=
  let sp := runLen isSpaceChar cs
  0 < sp &&
    (let rest := cs.drop sp
     SUFFIX_WORDS.any fun kw =>
       ciPrefix kw rest && (rest.drop kw.data.length).all isSpaceChar)

/-- Index of the leftmost match of the suffix pattern, if any. -/
def findSuffixIdx : List Char → Option Nat
  | [] => Option.none
  | c :: rest =>
    if suffixHere (c :: rest) then Option.some 0
    else (findSuffixIdx rest).map (· + 1)

/-- `re.sub(r"\s+(CAV BU|product|deal|service)\s*$", "", name, IGNORECASE)`. -/
def stripParamSuffix (name : String) : String :=
  match findSuffixIdx name.data with
  | Option.some i => String.mk (name.data.take i)
  | Option.none => name

/-! ## routing.py: parameter extraction -/

/-- routing.py `_extract_customer`: prefer a bare 5-6 digit id, else free
text after `for`/`of` with trailing parameter-like words stripped.  Note
that **both** branches tag the result `_needs_resolution: True`. -/
def _extract_customer (message : String) : Option ExtractedVal :=
  match findCavId message.data with
  | Option.some digits =>
    let cav_id := String.mk digits
    Option.some (.pair cav_id (Val.str cav_id) true false)
  | Option.none =>
    match findForOfName message.data with
    | Option.some raw =>
      let name := stripStr (String.mk raw)
      let name := stripStr (stripParamSuffix name)
      Option.some (.pair name (Val.str name) true false)
    | Option.none => Option.none

def underscoreToSpace (s : String) : String :=
  String.mk (s.data.map fun c => if c == '_' then ' ' else c)

/-- routing.py `_SHORT_NAMES` (dict order). -/
def _SHORT_NAMES : List (String × String) := [
  ("duo", "DUO"),
  ("umbrella", "UMBRELLA"),
  ("ise", "ISE"),
  ("intersight", "INTERSIGHT"),
  ("wireless", "WIRELESS"),
  ("collab", "COLLAB"),
  ("sd-wan", "SD-WAN"),
  ("sdwan", "SD-WAN"),
  ("firewall", "SECURE_FIREWALL"),
  ("epp", "EPP"),
  ("nexus 9k", "NX9K"),
  ("nexus 3k", "NX3K"),
  ("san", "SAN")]

/-- Occurrence of the literal `needle` in `hay` delimited by `\b` on both
sides (the short-name aliases all begin and end with word characters). -/
def wordBoundedIn (needle hay : String) : Bool :=
  (scan
    (fun cs =>
      if needle.data.isPrefixOf cs && boundaryAfter (cs.drop needle.data.length)
      then Option.some () else Option.none)
    false hay.data).isSome

/-- routing.py `_extract_product`: exact API key / key-with-spaces substring
in the uppercased message, then label substring in the lowercased message,
then word-bounded short aliases. -/
def _extract_product (message : String) : Option ExtractedVal :=
  let msg_upper := upperStr message
  let msg_lower := lowerStr message
  match PRODUCTS.find? (fun p =>
      pyIn (underscoreToSpace p.fst) msg_upper || pyIn p.fst msg_upper) with
  | Option.some p => Option.some (.pair p.snd (Val.str p.fst) false false)
  | Option.none =>
    match PRODUCTS.find? (fun p => pyIn (lowerStr p.snd) msg_lower) with
    | Option.some p => Option.some (.pair p.snd (Val.str p.fst) false false)
    | Option.none =>
      match _SHORT_NAMES.find? (fun sn => wordBoundedIn sn.fst msg_lower) with
      | Option.some sn =>
        Option.some (.pair ((PRODUCTS.lookup sn.snd).getD "") (Val.str sn.snd) false false)
      | Option.none => Option.none

/-- routing.py `_extract_static`: catalog-embedded options first (value or
label as substring of the lowercased message), then the `resolve_static`
fallback. -/
def _extract_static (param_name message : String) (pdef : ParamDef) : Option ExtractedVal :=
  let fromCatalog :=
    if pdef.options.isEmpty then Option.none
    else
      let msg_lower := lowerStr message
      (pdef.options.find? fun opt =>
          pyIn (lowerStr opt.value) msg_lower || pyIn (lowerStr opt.label) msg_lower).map
        fun opt => ExtractedVal.pair opt.label (Val.str opt.value) false false
  match fromCatalog with
  | Option.some r => Option.some r
  | Option.none =>
    match resolve_static param_name message with
    | Option.some r => Option.some (.pair r.snd (Val.str r.fst) false false)
    | Option.none => Option.none

/-- routing.py `_OUTCOME_KEYWORDS`. -/
def _OUTCOME_KEYWORDS : List String := [
  "secure access", "secure network", "secure endpoint",
  "network automation", "network visibility", "collaboration",
  "data center", "cloud security", "threat defense"]

/-- `deployment\s+(\S+)` (IGNORECASE) at the head, group 1. -/
def deploymentHere (cs : List Char) : Option (List Char) :=
  if ciPrefix "deployment" cs then
    let tail := cs.drop 10
    let sp := runLen isSpaceChar tail
    if 0 < sp then
      let rest := tail.drop sp
      let w := runLen (fun c => !(isSpaceChar c)) rest
      if 0 < w then Option.some (rest.take w) else Option.none
    else Option.none
  else Option.none

/-- `feature\s+([A-Za-z][^\n,?]*)` (IGNORECASE) at the head, group 1. -/
def featureHere (cs : List Char) : Option (List Char) :=
  if ciPrefix "feature" cs then
    let tail := cs.drop 7
    let sp := runLen isSpaceChar tail
    if 0 < sp then
      match tail.drop sp with
      | c :: rest2 =>
        if isAsciiAlpha c then
          let body := runLen (fun ch => !(ch == '\n' || ch == ',' || ch == '?')) rest2
          Option.some (c :: rest2.take body)
        else Option.none
      | [] => Option.none
    else Option.none
  else Option.none

/-- routing.py `_extract_remote_hint`.  The first deployment pattern
(`\bprimary\s+deployment\b`) has no capture group, so the code's
`if m and m.lastindex` guard always rejects it; only the literal
`"primary"` check and the second pattern can produce a hint. -/
def _extract_remote_hint (param_name message : String) : Option String :=
  let msg_lower := lowerStr message
  if param_name == "deployment" || param_name == "deploymentList" then
    if pyIn "primary" msg_lower then Option.some "primary"
    else
      match scan deploymentHere false message.data with
      | Option.some g => Option.some (stripStr (String.mk g))
      | Option.none => Option.none
  else if param_name == "outcome" || param_name == "outcomes" then
    match _OUTCOME_KEYWORDS.find? (fun kw => pyIn kw msg_lower) with
    | Option.some kw => Option.some kw
    | Option.none => Option.none
  else if param_name == "featureName" then
    match scan featureHere false message.data with
    | Option.some g => Option.some (stripStr (String.mk g))
    | Option.none => Option.none
  else Option.none

/-- One iteration of the routing.py `extract_parameters` loop body. -/
def extractOne' (message : String) (ext : EMap) (pdef : ParamDef) : EMap :=
  let name := pdef.name
  let subtype := pdef.subtype
  let ext := dictInsert ext name Option.none
  if name == "dealId" then
    match findDealId message.data with
    | Option.some m =>
      let val := upperStr (String.mk m)
      dictInsert ext name (Option.some (.pair val (Val.str val) false false))
    | Option.none => ext
  else if name == "opportunityId" then
    match findOpportunityId message.data with
    | Option.some m =>
      let val := String.mk m
      dictInsert ext name (Option.some (.pair val (Val.str val) false false))
    | Option.none => ext
  else if name == "accountId" then
    match findAccountId message.data with
    | Option.some m =>
      let val := String.mk m
      dictInsert ext name (Option.some (.pair val (Val.str val) false false))
    | Option.none => ext
  else if name == "customerName" then
    dictInsert ext name (_extract_customer message)
  else if name == "productName" then
    dictInsert ext name (_extract_product message)
  else if (STATIC_OPTIONS.lookup name).isSome then
    dictInsert ext name (_extract_static name message pdef)
  else if name == "service" then
    dictInsert ext name (_extract_static "service" message pdef)
  else if subtype == "remote" && !(name == "customerName" || name == "productName") then
    match _extract_remote_hint name message with
    | Option.some hint =>
      dictInsert ext name (Option.some (.pair hint (Val.str hint) true false))
    | Option.none => dictInsert ext name (Option.some .auto)
  else ext

/-- routing.py `extract_parameters`. -/
def extract_parameters (message : String) (param_defs : List ParamDef) : EMap :=
  param_defs.foldl (extractOne' message) []

/-! ## lookup.py: remote lookup endpoints and matching

The HTTP-performing primitives `get_list` and `search_customers` are
supplied as an `Oracle`; they return `Except` because in the real code a
call may also raise (`search_customers` has no try/except, and `get_list`
can still raise after its try block on unexpected body shapes).  The
environment and cookie arguments are threaded opaquely in the source and
are dropped here. -/

/-- A request body for a lookup API (`extra_body`). -/
abbrev Body := List (String × Val)

structure Oracle where
  /-- `search_customers environment question_id search_input cookies`. -/
  searchCustomers : String → String → Except String (List Opt)
  /-- `get_list environment endpoint question_id cookies method extra_body`:
  arguments here are endpoint, method, question id, extra body. -/
  getList : String → String → String → Option Body → Except String (List Opt)

/-- lookup.py `LOOKUP_ENDPOINTS`. -/
def LOOKUP_ENDPOINTS : List (String × (String × String)) := [
  ("productName", ("/api/renewals/get_product_name_list", "POST")),
  ("businessEntity", ("/api/renewals/get_business_entity_list", "POST")),
  ("businessEntities", ("/api/renewals/get_business_entity_list", "POST")),
  ("subBusinessEntity", ("/api/renewals/get_sub_business_entity_list", "POST")),
  ("subBusinessEntities", ("/api/renewals/get_sub_business_entity_list", "POST")),
  ("subBusinessServiceCategoryMultiSelect", ("/api/renewals/get_sub_business_entity_list", "POST")),
  ("metricName", ("/api/renewals/get_metric_name_list", "POST")),
  ("metrics", ("/api/renewals/get_metric_name_list", "POST")),
  ("marketSegment", ("/api/renewals/get_customer_attributes", "POST")),
  ("vertical", ("/api/renewals/get_customer_attributes", "POST")),
  ("pmg", ("/api/renewals/get_product_mapping_group_list", "POST")),
  ("fiscalQuarter", ("/api/renewals/get_fy_qtr_list", "POST")),
  ("fiscalQuarters", ("/api/renewals/get_fy_qtr_list", "POST")),
  ("riskFactor", ("/api/renewals/get_risk_factor_list", "GET")),
  ("stages", ("/api/renewals/get_stage_name_list", "GET")),
  ("consumptionValue", ("/api/renewals/get_ea_consumption_suite_value_range", "GET")),
  ("renewalProgramLead", ("/api/renewals/get_renewal_program_lead_list", "GET")),
  ("summaryCategory", ("/api/renewals/summary_category", "GET")),
  ("serviceOffer", ("/api/renewals/get_business_entity_list", "POST")),
  ("legacyServiceOffer", ("/api/renewals/get_business_entity_list", "POST"))]

/-- lookup.py `ADOPTION_LOOKUP_ENDPOINTS`. -/
def ADOPTION_LOOKUP_ENDPOINTS : List (String × (String × String)) := [
  ("productName", ("/api/adoption/getProductNameList", "POST")),
  ("deployment", ("/api/adoption/getDeploymentList/v3", "POST")),
  ("deploymentList", ("/api/adoption/getDeploymentList/v3", "POST")),
  ("featureName", ("/api/adoption/getFeatureNameList", "POST")),
  ("outcome", ("/api/adoption/getOutcomeList/v3", "POST")),
  ("outcomes", ("/api/adoption/getOutcomeList/v3", "POST"))]

/-- `Val` view of an option's possibly-null value. -/
def valOfOpt : Option String → Val
  | Option.some s => Val.str s
  | Option.none => Val.none

/-- `endpoints = ADOPTION_LOOKUP_ENDPOINTS if agent == "adoption" else
LOOKUP_ENDPOINTS` (shared by both lookup matchers). -/
def endpointsFor (agent : String) : List (String × (String × String)) :=
  if agent == "adoption" then ADOPTION_LOOKUP_ENDPOINTS else LOOKUP_ENDPOINTS

/-- The tail of lookup.py `resolve_remote_param` once the option list has
been fetched: the empty-list early return, then the access to `user_text`
(which raises when the caller handed in a non-string), then the three
matching tiers. -/
def rrpRest (param_name : String) (user_text : Except String String)
    (options : List Opt) : Except String (Option (Option String × String)) :=
  match options with
  | [] => .ok Option.none
  | _ :: _ =>
    match user_text with
    | .error e => .error e
    | .ok ut =>
      let t := lowerStr (stripStr ut)
      let pri :=
        if pyIn "primary" t && (param_name == "deployment" || param_name == "deploymentList")
        then options.find? (·.isPrimary) else Option.none
      match pri with
      | Option.some opt => .ok (Option.some (opt.value, opt.label))
      | Option.none =>
        match options.find? (fun opt =>
            t == lowerStr opt.valueOrEmpty || t == lowerStr opt.label) with
        | Option.some opt => .ok (Option.some (opt.value, opt.label))
        | Option.none =>
          match options.find? (fun opt =>
              (pyIn t (lowerStr opt.label) || pyIn (lowerStr opt.label) t)
              || (pyIn t (lowerStr opt.valueOrEmpty) || pyIn (lowerStr opt.valueOrEmpty) t)) with
          | Option.some opt => .ok (Option.some (opt.value, opt.label))
          | Option.none => .ok Option.none

/-- lookup.py `resolve_remote_param`.  `user_text` is passed as an `Except`
because the caller may hand in a non-string (then `user_text.strip()`
raises) — the source only touches `user_text` after the option list has
been fetched and found non-empty, which `rrpRest` preserves. -/
def resolve_remote_param (O : Oracle) (agent param_name question_id : String)
    (user_text : Except String String) (dependent_params : Option Body) :
    Except String (Option (Option String × String)) :=
  match (endpointsFor agent).lookup param_name with
  | Option.none => .ok Option.none
  | Option.some (endpoint, method) =>
    (O.getList endpoint method question_id dependent_params).bind
      (rrpRest param_name user_text)

/-- The tail of lookup.py `auto_select_remote_param` once the option list
has been fetched. -/
def asrpRest (param_name : String) (prefer_primary : Bool)
    (options : List Opt) : Except String (Option (Option String × String)) :=
  match options with
  | [] => .ok Option.none
  | o0 :: _ =>
    if prefer_primary && (param_name == "deployment" || param_name == "deploymentList") then
      match options.find? (·.isPrimary) with
      | Option.some o => .ok (Option.some (o.value, o.label))
      | Option.none =>
        match options.find? (fun o => pyIn "primary" (lowerStr o.label)) with
        | Option.some o => .ok (Option.some (o.value, o.label))
        | Option.none => .ok (Option.some (o0.value, o0.label))
    else .ok (Option.some (o0.value, o0.label))

/-- lookup.py `auto_select_remote_param`. -/
def auto_select_remote_param (O : Oracle) (agent param_name question_id : String)
    (dependent_params : Option Body) (prefer_primary : Bool) :
    Except String (Option (Option String × String)) :=
  match (endpointsFor agent).lookup param_name with
  | Option.none => .ok Option.none
  | Option.some (endpoint, method) =>
    (O.getList endpoint method question_id dependent_params).bind
      (asrpRest param_name prefer_primary)

/-! ## server.py: dependency bodies and the resolver -/

/-- server.py `_FALLBACK_PARAM_DEPS`. -/
def _FALLBACK_PARAM_DEPS : List (String × List String) := [
  ("deployment", ["customerName", "productName"]),
  ("deploymentList", ["customerName", "productName"]),
  ("outcome", ["customerName", "productName", "deploymentList"]),
  ("outcomes", ["customerName", "productName", "deploymentList"]),
  ("featureName", ["customerName", "productName"]),
  ("marketSegment", ["customerName"]),
  ("vertical", ["customerName"]),
  ("subBusinessEntity", ["customerName"]),
  ("subBusinessEntities", ["customerName"]),
  ("subBusinessServiceCategoryMultiSelect", ["customerName"]),
  ("metrics", ["customerName", "productName"])]

/-- server.py `_FALLBACK_FIELD_NAME_MAP`. -/
def _FALLBACK_FIELD_NAME_MAP : List (String × List (String × String)) := [
  ("outcome", [("deploymentList", "deployment")]),
  ("outcomes", [("deploymentList", "deployment")]),
  ("subBusinessEntity", [("customerName", "customer_hierarchy")]),
  ("subBusinessEntities", [("customerName", "customer_hierarchy"),
                           ("businessEntities", "business_entity")]),
  ("subBusinessServiceCategoryMultiSelect", [("customerName", "customer_hierarchy")]),
  ("metrics", [("customerName", "customerName"), ("productName", "productName")])]

/-- server.py `_get_param_def`. -/
def _get_param_def (question : Question) (param_name : String) : Option ParamDef :=
  question.parameters.find? (fun pdef => pdef.name == param_name)

/-- `'value'\s*:\s*\$\.(\w+)` at the head of the transform text, group 1. -/
def valueFieldHere (cs : List Char) : Option (List Char) :=
  if "'value'".data.isPrefixOf cs then
    let t1 := cs.drop 7
    let t1 := t1.drop (runLen isSpaceChar t1)
    match t1 with
    | ':' :: t2 =>
      let t2 := t2.drop (runLen isSpaceChar t2)
      match t2 with
      | '$' :: '.' :: t3 =>
        let w := runLen isWordChar t3
        if 0 < w then Option.some (t3.take w) else Option.none
      | _ => Option.none
    | _ => Option.none
  else Option.none

/-- Plain left-to-right scanner with no word-boundary gate. -/
def scanAny (here : List Char → Option α) : List Char → Option α
  | [] => Option.none
  | c :: rest =>
    match here (c :: rest) with
    | Option.some r => Option.some r
    | Option.none => scanAny here rest

/-- server.py `_uses_summary_as_value`: does the catalog transform for this
parameter map the API value field to `OUTCOME_SUMMARY`? -/
def _uses_summary_as_value (question : Question) (param_name : String) : Bool :=
  match _get_param_def question param_name with
  | Option.none => false
  | Option.some pdef =>
    let transform := match pdef.api with
      | Option.some a => a.transform
      | Option.none => ""
    match scanAny valueFieldHere transform.data with
    | Option.some g => String.mk g == "OUTCOME_SUMMARY"
    | Option.none => false

/-- server.py `_build_dependent_body`. -/
def _build_dependent_body (question : Question) (parameters : PMap)
    (param_name : String) : Option Body :=
  let param_def := _get_param_def question param_name
  let api_params := match param_def with
    | Option.some pd => match pd.api with
      | Option.some a => a.params
      | Option.none => []
    | Option.none => []
  let body₁ : Body :=
    if api_params.isEmpty then []
    else api_params.foldl (fun body kv =>
      match kv.snd with
      | Option.none => body
      | Option.some spec =>
        match spec.value with
        | Option.some v => dictInsert body kv.fst v
        | Option.none =>
          match spec.fieldName with
          | Option.none => body
          | Option.some source =>
            if source == "" then body
            else
              let raw_val : Option Val :=
                match parameters.lookup source with
                | Option.some p => Option.some p.value
                | Option.none =>
                  if source == "deploymentList" then
                    (parameters.lookup "deployment").map (·.value)
                  else if source == "deployment" then
                    (parameters.lookup "deploymentList").map (·.value)
                  else Option.none
              match raw_val with
              | Option.none => body
              | Option.some Val.none => body
              | Option.some rv =>
                let rv :=
                  if spec.transform == Option.some "to-array" && !rv.isList then
                    Val.list [rv]
                  else if kv.fst == "deploymentList" && !rv.isList then
                    Val.list [rv]
                  else rv
                dictInsert body kv.fst rv) []
  if !body₁.isEmpty then Option.some body₁
  else
    match _FALLBACK_PARAM_DEPS.lookup param_name with
    | Option.none => Option.none
    | Option.some needed =>
      let field_map := (_FALLBACK_FIELD_NAME_MAP.lookup param_name).getD []
      let body₂ : Body := needed.foldl (fun body dep =>
        let raw_val : Option Val :=
          match parameters.lookup dep with
          | Option.some p => Option.some p.value
          | Option.none =>
            if dep == "deploymentList" then
              (parameters.lookup "deployment").map (·.value)
            else Option.none
        match raw_val with
        | Option.none => body
        | Option.some Val.none => body
        | Option.some rv =>
          let rv := if dep == "deploymentList" && !rv.isList then Val.list [rv] else rv
          dictInsert body ((field_map.lookup dep).getD dep) rv) []
      if body₂.isEmpty then Option.none else Option.some body₂

/-- server.py `_RESOLVE_ORDER`. -/
def _RESOLVE_ORDER : List String := [
  "customerName", "productName",
  "businessEntity", "businessEntities",
  "subBusinessEntity", "subBusinessEntities",
  "subBusinessServiceCategoryMultiSelect",
  "marketSegment", "vertical",
  "deployment", "deploymentList",
  "outcome", "outcomes",
  "featureName", "metrics"]

/-- The sort key `_RESOLVE_ORDER.index(n) if n in _RESOLVE_ORDER else 99`. -/
def resolveKey (n : String) : Nat :=
  match _RESOLVE_ORDER.findIdx? (· == n) with
  | Option.some i => i
  | Option.none => 99

/-- `sorted(extracted.keys(), key=resolveKey)` — Python's `sorted` is
stable, which is exactly insertion sort by `≤` on keys. -/
def orderedNames (names : List String) : List String :=
  List.insertionSort (fun a b => resolveKey a ≤ resolveKey b) names

/-- The branch selection of one resolver-loop iteration: the customer
search / auto-select / hint-match / pass-through alternatives, producing
the updated `{label, value, hidden}` triple (or unresolved, or an
error). -/
def stepBranch (O : Oracle) (question : Question) (parameters : PMap)
    (name : String) (val : ExtractedVal) :
    Except String (Option (String × Val × Bool)) :=
  let auto_resolve := match val with
    | .auto => true
    | _ => false
  let needs_resolution := match val with
    | .pair _ _ nr _ => nr
    | .auto => false
  if name == "customerName" && needs_resolution then
    match val with
    | .pair label _ _ _ =>
      (O.searchCustomers question.backendQuestionId label).bind fun results =>
        match results with
        | [] => .ok Option.none
        | r0 :: _ => .ok (Option.some (r0.label, r0.valueVal, false))
    | .auto => .ok Option.none
  else if auto_resolve then
    (auto_select_remote_param O question.agent name question.backendQuestionId
        (_build_dependent_body question parameters name)
        (name == "deployment" || name == "deploymentList")).bind fun resolved =>
      match resolved with
      | Option.some vl => .ok (Option.some (vl.snd, valOfOpt vl.fst, false))
      | Option.none => .ok Option.none
  else if needs_resolution then
    match val with
    | .pair label _ _ _ =>
      (resolve_remote_param O question.agent name question.backendQuestionId
          (.ok label) (_build_dependent_body question parameters name)).bind fun r =>
        (match r with
          | Option.none =>
            if name == "outcome" || name == "outcomes" then
              auto_select_remote_param O question.agent name question.backendQuestionId
                (_build_dependent_body question parameters name) false
            else .ok Option.none
          | Option.some x => .ok (Option.some x)).bind fun r2 =>
          match r2 with
          | Option.some vl => .ok (Option.some (vl.snd, valOfOpt vl.fst, false))
          | Option.none => .ok Option.none
    | .auto => .ok Option.none
  else
    match question.parameters.find? (fun p => p.name == name) with
    | Option.some pd =>
      if pd.subtype == "remote" then
        match val with
        | .pair label value _ _ =>
          (resolve_remote_param O question.agent name question.backendQuestionId
              (if label != "" then .ok label
               else match value with
                 | Val.str s => .ok s
                 | _ => .error "AttributeError")
              (_build_dependent_body question parameters name)).bind fun resolved =>
            match resolved with
            | Option.some vl => .ok (Option.some (vl.snd, valOfOpt vl.fst, false))
            | Option.none => .ok Option.none
        | .auto => .ok Option.none
      else
        match val with
        | .pair label value _ hidden => .ok (Option.some (label, value, hidden))
        | .auto => .ok Option.none
    | Option.none =>
      match val with
      | .pair label value _ hidden => .ok (Option.some (label, value, hidden))
      | .auto => .ok Option.none

/-- The common tail of one resolver-loop iteration: the outcome-summary
overwrite, the `multiple` wrap, and the final clean dict. -/
def stepFinish (question : Question) (name : String)
    (b : Option (String × Val × Bool)) : Except String (Option ResolvedParam) :=
  match b with
  | Option.none => .ok Option.none
  | Option.some (label, value, hidden) =>
    let value :=
      if (name == "outcome" || name == "outcomes") && _uses_summary_as_value question name
      then Val.str label else value
    let multiple := match _get_param_def question name with
      | Option.some pd => pd.multiple
      | Option.none => false
    let final_value := if multiple && !value.isList then Val.list [value] else value
    .ok (Option.some ⟨label, final_value, hidden⟩)

/-- The body of one iteration of the resolver loop (the code inside the
`try`), for one parameter name and its non-`None` extracted value.
Returns `.ok (some clean)` when the parameter resolves, `.ok none` where
the source appends to `unresolvable` and continues, and `.error` where the
source would raise (caught by the `except` around the iteration). -/
def stepResolve (O : Oracle) (question : Question) (parameters : PMap)
    (name : String) (val : ExtractedVal) : Except String (Option ResolvedParam) :=
  Except.bind (stepBranch O question parameters name val) (stepFinish question name)

/-- The resolver loop over the dependency-ordered names, with the
per-parameter `try`/`except` folding any raised error into
`unresolvable`. -/
def resolveLoop (O : Oracle) (question : Question) (extracted : EMap) :
    List String → PMap → List String → PMap × List String
  | [], parameters, unresolvable => (parameters, unresolvable)
  | n :: rest, parameters, unresolvable =>
    match extracted.lookup n with
    | Option.none => resolveLoop O question extracted rest parameters unresolvable
    | Option.some Option.none =>
      resolveLoop O question extracted rest parameters (unresolvable ++ [n])
    | Option.some (Option.some v) =>
      match stepResolve O question parameters n v with
      | .error _ => resolveLoop O question extracted rest parameters (unresolvable ++ [n])
      | .ok Option.none => resolveLoop O question extracted rest parameters (unresolvable ++ [n])
      | .ok (Option.some rp) =>
        resolveLoop O question extracted rest (dictInsert parameters n rp) unresolvable

/-- server.py `_resolve_params_with_lookups`. -/
def _resolve_params_with_lookups (O : Oracle) (question : Question)
    (extracted : EMap) : PMap × List String :=
  resolveLoop O question extracted (orderedNames (dictKeys extracted)) [] []

/-! ## routing.py: question matching

`find_best_question` delegates the scoring to the external rapidfuzz
library.  `rfExtractOne` models `process.extractOne` by its documented
contract: iterate the choices in order, ignore scores below `score_cutoff`
(equal scores are kept), and replace the current best only on a strictly
greater score, so the first choice attaining the maximum wins.  The fuzzy
scorer itself (`fuzz.token_set_ratio` applied to the message) is an
abstract function into ℚ. -/

def rfExtractOne (score : String → ℚ) (cutoff : ℚ) :
    List (String × String) → Option (String × ℚ × String) → Option (String × ℚ × String)
  | [], best => best
  | (k, c) :: rest, best =>
    let s := score c
    let best' :=
      if s < cutoff then best
      else
        match best with
        | Option.none => Option.some (c, s, k)
        | Option.some b => if b.snd.fst < s then Option.some (c, s, k) else best
    rfExtractOne score cutoff rest best'

/-- The `choices` dict `{q["id"]: label + " " + questionTemplate}`. -/
def buildChoices (catalog : List Question) : List (String × String) :=
  catalog.foldl (fun m q => dictInsert m q.id (q.label ++ " " ++ q.questionTemplate)) []

/-- routing.py `find_best_question` over an abstract catalog and scorer. -/
def find_best_question (score : String → String → ℚ) (catalog : List Question)
    (message : String) (threshold : ℚ) : Option Question :=
  match rfExtractOne (score message) threshold (buildChoices catalog) Option.none with
  | Option.none => Option.none
  | Option.some r => catalog.find? (fun q => q.id == r.snd.snd)

/-! ## lookup.py: the HTTP-level gateways `search_customers` and `get_list`

These are modelled one level below the `Oracle`: the argument is the
outcome of the HTTP exchange — either a transport error or a response with
a status code and a body that either parses as JSON or fails to parse.
Errors that the Python code does not catch surface as `.error`. -/

/-- A parsed JSON value. -/
inductive J where
  | null
  | bool (b : Bool)
  | num (n : Int)
  | str (s : String)
  | arr (xs : List J)
  | obj (kvs : List (String × J))

/-- Python truthiness of a JSON-derived value. -/
def pyTruthy : J → Bool
  | J.null => false
  | J.bool b => b
  | J.num n => n != 0
  | J.str s => s != ""
  | J.arr xs => !xs.isEmpty
  | J.obj kvs => !kvs.isEmpty

mutual

/-- Python `str()` of a JSON-derived value. -/
def pyStr : J → String
  | J.null => "None"
  | J.bool true => "True"
  | J.bool false => "False"
  | J.num n => toString n
  | J.str s => s
  | J.arr xs => "[" ++ pyReprJoin xs ++ "]"
  | J.obj kvs => "\x7b" ++ pyReprKVJoin kvs ++ "\x7d"

/-- Python `repr()` of a JSON-derived value (as used inside `str()` of
containers). -/
def pyRepr : J → String
  | J.null => "None"
  | J.bool true => "True"
  | J.bool false => "False"
  | J.num n => toString n
  | J.str s => "'" ++ s ++ "'"
  | J.arr xs => "[" ++ pyReprJoin xs ++ "]"
  | J.obj kvs => "\x7b" ++ pyReprKVJoin kvs ++ "\x7d"

def pyReprJoin : List J → String
  | [] => ""
  | [x] => pyRepr x
  | x :: y :: rest => pyRepr x ++ ", " ++ pyReprJoin (y :: rest)

def pyReprKVJoin : List (String × J) → String
  | [] => ""
  | [(k, v)] => "'" ++ k ++ "': " ++ pyRepr v
  | (k, v) :: y :: rest => "'" ++ k ++ "': " ++ pyRepr v ++ ", " ++ pyReprKVJoin (y :: rest)

end

/-- An option dict as produced by the HTTP-level gateways: label and value
are arbitrary JSON-derived values (`search_customers` passes whatever the
backend sent through, including explicit nulls). -/
structure RawOpt where
  label : J
  value : J
  isPrimary : Bool := false

/-- The outcome of the HTTP exchange: transport error, or a response whose
body either parses as JSON or fails to. -/
structure HttpResp where
  status : Nat
  body : Except String J

/-- lookup.py `search_customers`: no try/except around the call, so a
transport error or a `resp.json()` failure propagates; only a non-200
status is turned into `[]`. -/
def search_customers (http : Except String HttpResp) : Except String (List RawOpt) :=
  match http with
  | .error e => .error e
  | .ok resp =>
    if resp.status != 200 then .ok []
    else
      match resp.body with
      | .error e => .error e
      | .ok data =>
        match data with
        | J.obj kvs =>
          match (kvs.lookup "results").getD (J.arr []) with
          | J.arr rs =>
            .ok (rs.map fun r =>
              match r with
              | J.obj f =>
                { label := (f.lookup "label").getD (J.str (pyStr r)),
                  value := (f.lookup "value").getD (J.str (pyStr r)) }
              | _ => { label := J.str (pyStr r), value := J.str (pyStr r) })
          | _ => .ok []
        | _ => .error "AttributeError"

/-- lookup.py `_normalize_list_item`. -/
def pyOrChain : List (Option J) → J → J
  | [], d => d
  | x :: rest, d =>
    match x with
    | Option.some j => if pyTruthy j then j else pyOrChain rest d
    | Option.none => pyOrChain rest d

def _normalize_list_item (r : J) : RawOpt :=
  match r with
  | J.obj f =>
    { label := pyOrChain [f.lookup "label", f.lookup "OUTCOME_SUMMARY",
                          f.lookup "name"] (J.str (pyStr r)),
      value := pyOrChain [f.lookup "value", f.lookup "OUTCOME_ID",
                          f.lookup "OUTCOME_SUMMARY", f.lookup "name"] (J.str (pyStr r)) }
  | _ => { label := J.str (pyStr r), value := J.str (pyStr r) }

/-- lookup.py `_parse_deployment_list`.  Iterating a dict or a string
yields non-dict elements that the `isinstance` guard skips; iterating a
non-iterable raises. -/
def _parse_deployment_list (dl : J) : Except String (List RawOpt) :=
  match dl with
  | J.arr deps =>
    .ok (deps.foldr (fun dep acc =>
      match dep with
      | J.obj f =>
        let name := (f.lookup "deploymentName").getD (J.str "")
        let party := (f.lookup "partyName").getD (J.str "")
        let city := (f.lookup "city").getD (J.str "")
        let ip := (f.lookup "isPrimaryFlag").getD (J.bool false)
        let is_primary : Bool :=
          match ip with
          | J.str s => lowerStr s == "true" || lowerStr s == "1" || lowerStr s == "yes"
          | j => pyTruthy j
        let label := pyStr name ++ " | " ++ pyStr party ++ " | " ++ pyStr city
        let label := if is_primary then "[Primary] " ++ label else label
        { label := J.str label, value := name, isPrimary := is_primary } :: acc
      | _ => acc) [])
  | J.obj _ => .ok []
  | J.str _ => .ok []
  | _ => .error "TypeError"

/-- The post-`try` body handling of lookup.py `get_list` (everything after
`data = resp.json()` succeeded); shape errors here are **not** caught. -/
def get_list_post (data : J) : Except String (List RawOpt) :=
  match data with
  | J.obj kvs =>
    if (kvs.lookup "deploymentList").isSome then
      _parse_deployment_list ((kvs.lookup "deploymentList").getD J.null)
    else
      match (kvs.lookup "results").getD ((kvs.lookup "data").getD (J.arr [])) with
      | J.obj rf =>
        match (rf.lookup "attributes").getD (J.obj []) with
        | J.obj af =>
          match af.lookup "customer_market_segment" with
          | Option.some (J.arr vs) =>
            .ok (vs.map fun v => { label := J.str (pyStr v), value := J.str (pyStr v) })
          | _ =>
            match af.lookup "customer_industry_vertical" with
            | Option.some (J.arr vs) =>
              .ok (vs.map fun v => { label := J.str (pyStr v), value := J.str (pyStr v) })
            | _ => .ok []
        | J.str s =>
          if pyIn "customer_market_segment" s || pyIn "customer_industry_vertical" s
          then .error "TypeError" else .ok []
        | J.arr xs =>
          if xs.any (fun x =>
              match x with
              | J.str s => s == "customer_market_segment" || s == "customer_industry_vertical"
              | _ => false)
          then .error "TypeError" else .ok []
        | _ => .error "TypeError"
      | J.arr rs => .ok (rs.map _normalize_list_item)
      | _ => .ok []
  | J.str s => if pyIn "deploymentList" s then .error "TypeError" else .error "AttributeError"
  | J.arr xs =>
    if xs.any (fun x =>
        match x with
        | J.str s => s == "deploymentList"
        | _ => false)
    then .error "TypeError" else .error "AttributeError"
  | _ => .error "TypeError"

/-- lookup.py `get_list`: the `try` swallows transport errors, non-200
handling and `resp.json()` failures all yield `[]`. -/
def get_list (http : Except String HttpResp) : Except String (List RawOpt) :=
  match http with
  | .error _ => .ok []
  | .ok resp =>
    if resp.status != 200 then .ok []
    else
      match resp.body with
      | .error _ => .ok []
      | .ok data => get_list_post data

/-! ## General helper lemmas -/

theorem find?_or_comm {α : Type} (l : List α) (p q : α → Bool) :
    l.find? (fun a => p a || q a) = l.find? (fun a => q a || p a) := by
  have h : (fun a => p a || q a) = (fun a => q a || p a) := funext fun a => Bool.or_comm _ _
  rw [h]

/-! ## C5: static fallback matching order -/

/-- **C5**: when a static-select parameter falls back to the global
static-options table, matching proceeds in two tiers — an exact pass over
all options first, then a substring pass — and within each tier the
resulting selection is as if each option's value text were compared before
its label text: the source matcher coincides extensionally with the
spec-ordered matcher for every parameter name and every user text. -/
theorem C5_resolve_static_two_tiers :
    ∀ param_name text, resolve_static param_name text = resolve_static_specOrder param_name text := by
  intro pn t
  unfold resolve_static resolve_static_specOrder
  cases h : STATIC_OPTIONS.lookup pn with
  | none => rfl
  | some options =>
    simp only []
    rw [find?_or_comm options
      (fun opt => pyIn (lowerStr (stripStr t)) (lowerStr opt.label)
        || pyIn (lowerStr opt.label) (lowerStr (stripStr t)))
      (fun opt => pyIn (lowerStr (stripStr t)) (lowerStr opt.value)
        || pyIn (lowerStr opt.value) (lowerStr (stripStr t)))]

/-! ## C1: bare numeric customer ids -/

/-- An oracle whose lookups all succeed with empty result lists. -/
def O_empty : Oracle :=
  { searchCustomers := fun _ _ => .ok [], getList := fun _ _ _ _ => .ok [] }

/-- A question with a single remote `customerName` parameter. -/
def custQuestion : Question :=
  { id := "renewals:question:9", agent := "renewals", backendQuestionId := "sentimentQ2",
    parameters := [{ name := "customerName", subtype := "remote" }] }

/-- **C1**: the claim says a bare 5-6 digit number yields a customer
parameter that is already fully resolved, needing no remote customer-search
lookup.  In the code `_extract_customer` tags the numeric branch
`_needs_resolution: True` (contradicting the repository's own test
`test_extract_cav_bu_id_as_customer`, which asserts the key is absent), so
the resolver does call `search_customers`; with a search that returns no
results the parameter ends up unresolved instead of resolved. -/
theorem C1_numeric_customer_is_tagged_needs_resolution :
    _extract_customer "products for United Nations CAV BU 104461"
      = Option.some (.pair "104461" (Val.str "104461") true false) ∧
    _resolve_params_with_lookups O_empty custQuestion
      (extract_parameters "products for United Nations CAV BU 104461"
        custQuestion.parameters)
      = ([], ["customerName"]) :=
  ⟨rfl, rfl⟩

/-! ## C4: lookup gateway failure modes -/

/-- **C4** (counterexample): the claim says both gateway operations turn
every failure mode into an empty sequence; but `search_customers` has no
try/except, so a transport error and a body-parse failure both propagate
as exceptions instead of returning `[]`. -/
theorem C4_search_customers_raises :
    search_customers (.error "ConnectError") = .error "ConnectError" ∧
    search_customers (.ok ⟨200, .error "JSONDecodeError"⟩) = .error "JSONDecodeError" :=
  ⟨rfl, rfl⟩

/-- **C4** (amended): `get_list` returns an empty sequence on all three
failure modes (transport error, non-200 status, malformed body), while
`search_customers` returns an empty sequence only on a non-200 status and
propagates transport errors and body-parse failures as exceptions. -/
theorem C4_gateway_failure_modes :
    (∀ e, get_list (.error e) = .ok []) ∧
    (∀ st (body : Except String J), st ≠ 200 → get_list (.ok ⟨st, body⟩) = .ok []) ∧
    (∀ e, get_list (.ok ⟨200, .error e⟩) = .ok []) ∧
    (∀ st (body : Except String J), st ≠ 200 → search_customers (.ok ⟨st, body⟩) = .ok []) ∧
    (∀ e, search_customers (.error e) = .error e) ∧
    (∀ e, search_customers (.ok ⟨200, .error e⟩) = .error e) := by
  refine ⟨fun e => rfl, fun st body h => ?_, fun e => rfl, fun st body h => ?_,
    fun e => rfl, fun e => rfl⟩
  · simp only [get_list]
    rw [if_pos (by simpa [bne_iff_ne] using h)]
  · simp only [search_customers]
    rw [if_pos (by simpa [bne_iff_ne] using h)]

/-- **C4** (witness): the amended theorem applied at status 500 / 503. -/
theorem C4_gateway_failure_modes_witness :
    get_list (.ok ⟨500, .ok (J.obj [])⟩) = .ok [] ∧
    search_customers (.ok ⟨503, .ok J.null⟩) = .ok [] :=
  ⟨C4_gateway_failure_modes.2.1 500 _ (by decide),
   C4_gateway_failure_modes.2.2.2.1 503 _ (by decide)⟩

/-! ## C8: deployment auto-selection -/


def autoSelectDeploymentResult (options : List Opt) :
    Except String (Option (Option String × String)) :=
  match options with
  | [] => .ok Option.none
  | o0 :: _ =>
    match options.find? (·.isPrimary) with
    | Option.some o => .ok (Option.some (o.value, o.label))
    | Option.none =>
      match options.find? (fun o => pyIn "primary" (lowerStr o.label)) with
      | Option.some o => .ok (Option.some (o.value, o.label))
      | Option.none => .ok (Option.some (o0.value, o0.label))

theorem auto_select_deployment_reduce (O : Oracle) (qid : String) (dep : Option Body)
    (opts : List Opt) (name : String) (hname : name = "deployment" ∨ name = "deploymentList")
    (hO : O.getList "/api/adoption/getDeploymentList/v3" "POST" qid dep = .ok opts) :
    auto_select_remote_param O "adoption" name qid dep true = autoSelectDeploymentResult opts := by
  rcases hname with h | h <;> subst h
  · have h1 : auto_select_remote_param O "adoption" "deployment" qid dep true
        = (O.getList "/api/adoption/getDeploymentList/v3" "POST" qid dep).bind
            autoSelectDeploymentResult := rfl
    rw [h1, hO]; rfl
  · have h1 : auto_select_remote_param O "adoption" "deploymentList" qid dep true
        = (O.getList "/api/adoption/getDeploymentList/v3" "POST" qid dep).bind
            autoSelectDeploymentResult := rfl
    rw [h1, hO]; rfl

theorem find?_pre {α : Type} (p : α → Bool) (pre : List α) (o : α) (post : List α)
    (hpre : ∀ x ∈ pre, p x = false) (ho : p o = true) :
    (pre ++ o :: post).find? p = Option.some o := by
  induction pre with
  | nil => simp [List.find?_cons_of_pos, ho]
  | cons x xs ih =>
    have hx := hpre x (by simp)
    simp only [List.cons_append, List.find?_cons, hx]
    exact ih (fun y hy => hpre y (by simp [hy]))

theorem asdr_primary (l : List Opt) (o : Opt) (h : l.find? (·.isPrimary) = Option.some o) :
    autoSelectDeploymentResult l = .ok (Option.some (o.value, o.label)) := by
  cases l with
  | nil => cases h
  | cons x xs => simp only [autoSelectDeploymentResult, h]

theorem asdr_label (l : List Opt) (o : Opt)
    (h1 : l.find? (·.isPrimary) = Option.none)
    (h2 : l.find? (fun o => pyIn "primary" (lowerStr o.label)) = Option.some o) :
    autoSelectDeploymentResult l = .ok (Option.some (o.value, o.label)) := by
  cases l with
  | nil => cases h2
  | cons x xs => simp only [autoSelectDeploymentResult, h1, h2]

theorem asdr_fallback (o0 : Opt) (rest : List Opt)
    (h1 : ((o0 :: rest).find? (·.isPrimary)) = Option.none)
    (h2 : ((o0 :: rest).find? (fun o => pyIn "primary" (lowerStr o.label))) = Option.none) :
    autoSelectDeploymentResult (o0 :: rest) = .ok (Option.some (o0.value, o0.label)) := by
  simp only [autoSelectDeploymentResult, h1, h2]

/-- **C8**: auto-selecting a deployment parameter with prefer-primary
enabled never raises, returns `None` exactly when the fetched option list
is empty, and on a non-empty list picks the first option flagged primary,
else the first option whose (lowercased) label contains `"primary"`, else
the first option in the list's return order. -/
theorem C8_auto_select_deployment :
    ∀ (O : Oracle) (qid : String) (dep : Option Body) (name : String) (opts : List Opt),
      (name = "deployment" ∨ name = "deploymentList") →
      O.getList "/api/adoption/getDeploymentList/v3" "POST" qid dep = .ok opts →
      ((∃ x, auto_select_remote_param O "adoption" name qid dep true = .ok x) ∧
       (auto_select_remote_param O "adoption" name qid dep true = .ok Option.none ↔ opts = []) ∧
       (∀ pre o post, opts = pre ++ o :: post → o.isPrimary = true →
         (∀ o2 ∈ pre, o2.isPrimary = false) →
         auto_select_remote_param O "adoption" name qid dep true
           = .ok (Option.some (o.value, o.label))) ∧
       ((∀ o2 ∈ opts, o2.isPrimary = false) →
         ∀ pre o post, opts = pre ++ o :: post → pyIn "primary" (lowerStr o.label) = true →
         (∀ o2 ∈ pre, pyIn "primary" (lowerStr o2.label) = false) →
         auto_select_remote_param O "adoption" name qid dep true
           = .ok (Option.some (o.value, o.label))) ∧
       ((∀ o2 ∈ opts, o2.isPrimary = false ∧ pyIn "primary" (lowerStr o2.label) = false) →
         ∀ o0 rest, opts = o0 :: rest →
         auto_select_remote_param O "adoption" name qid dep true
           = .ok (Option.some (o0.value, o0.label)))) := by
  intro O qid dep name opts hname hO
  rw [auto_select_deployment_reduce O qid dep opts name hname hO]
  refine ⟨?_, ?_, ?_, ?_, ?_⟩
  · rcases opts with _ | ⟨o0, rest⟩
    · exact ⟨Option.none, rfl⟩
    · rcases h1 : (o0 :: rest).find? (·.isPrimary) with _ | o
      · rcases h2 : (o0 :: rest).find? (fun o => pyIn "primary" (lowerStr o.label)) with _ | o
        · exact ⟨_, asdr_fallback o0 rest h1 h2⟩
        · exact ⟨_, asdr_label _ _ h1 h2⟩
      · exact ⟨_, asdr_primary _ _ h1⟩
  · rcases opts with _ | ⟨o0, rest⟩
    · simp [autoSelectDeploymentResult]
    · constructor
      · rcases h1 : (o0 :: rest).find? (·.isPrimary) with _ | o
        · rcases h2 : (o0 :: rest).find? (fun o => pyIn "primary" (lowerStr o.label)) with _ | o
          · simp [autoSelectDeploymentResult, h1, h2]
          · simp [autoSelectDeploymentResult, h1, h2]
        · simp [autoSelectDeploymentResult, h1]
      · intro h; cases h
  · intro pre o post hsplit hprim hpre
    subst hsplit
    exact asdr_primary _ _ (find?_pre (·.isPrimary) pre o post hpre hprim)
  · intro hnopr pre o post hsplit hlbl hpre
    subst hsplit
    have hfp : ((pre ++ o :: post).find? (·.isPrimary)) = Option.none :=
      List.find?_eq_none.mpr (fun x hx => by simp [hnopr x hx])
    exact asdr_label _ _ hfp
      (find?_pre (fun o => pyIn "primary" (lowerStr o.label)) pre o post hpre hlbl)
  · intro hnone o0 rest hsplit
    subst hsplit
    have hfp : ((o0 :: rest).find? (·.isPrimary)) = Option.none :=
      List.find?_eq_none.mpr (fun x hx => by simp [(hnone x hx).1])
    have hfl : ((o0 :: rest).find? (fun o => pyIn "primary" (lowerStr o.label))) = Option.none :=
      List.find?_eq_none.mpr (fun x hx => by simp [(hnone x hx).2])
    exact asdr_fallback o0 rest hfp hfl

/-- An oracle whose deployment lookup returns two non-primary options. -/
def O_twoDeps : Oracle :=
  { searchCustomers := fun _ _ => .ok [],
    getList := fun _ _ _ _ =>
      .ok [{ label := "West", value := Option.some "west" },
           { label := "East", value := Option.some "east" }] }

/-- **C8** (witness): two non-primary options with prefer-primary enabled
fall back to the first option of the list, with no error. -/
theorem C8_auto_select_deployment_witness :
    auto_select_remote_param O_twoDeps "adoption" "deployment" "q1" Option.none true
      = .ok (Option.some (Option.some "west", "West")) :=
  (C8_auto_select_deployment O_twoDeps "q1" Option.none "deployment"
      [{ label := "West", value := Option.some "west" },
       { label := "East", value := Option.some "east" }]
      (Or.inl rfl) rfl).2.2.2.2 (by decide) _ _ rfl

/-! ## C2: per-parameter failure isolation in the resolver -/


theorem resolveLoop_unres_mono (O : Oracle) (q : Question) (e : EMap) :
    ∀ (names : List String) (params : PMap) (u : List String) (x : String),
      x ∈ u → x ∈ (resolveLoop O q e names params u).snd := by
  intro names
  induction names with
  | nil => intro params u x hx; simpa [resolveLoop] using hx
  | cons n rest ih =>
    intro params u x hx
    rw [resolveLoop]
    cases hl : e.lookup n with
    | none => simp only [hl]; exact ih params u x hx
    | some v =>
      cases v with
      | none => simp only [hl]; exact ih params (u ++ [n]) x (by simp [hx])
      | some v =>
        simp only [hl]
        cases hs : stepResolve O q params n v with
        | error err => simp only [hs]; exact ih params (u ++ [n]) x (by simp [hx])
        | ok r =>
          cases r with
          | none => simp only [hs]; exact ih params (u ++ [n]) x (by simp [hx])
          | some rp => simp only [hs]; exact ih (dictInsert params n rp) u x hx

/-- **C2**: the resolver never propagates an exception to its caller — it
is a total function into a (parameters, unresolved) pair, and when the
resolution of one parameter raises (`stepResolve` returns `.error`), the
loop is exactly the loop on the remaining names with that one parameter's
name appended to the unresolved list, which therefore contains it in the
final result; resolution of the remaining parameters continues
unchanged. -/
theorem C2_failure_isolation :
    ∀ (O : Oracle) (q : Question) (extracted : EMap) (n : String) (rest : List String)
      (params : PMap) (u : List String) (v : ExtractedVal) (err : String),
      extracted.lookup n = Option.some (Option.some v) →
      stepResolve O q params n v = .error err →
      (resolveLoop O q extracted (n :: rest) params u
        = resolveLoop O q extracted rest params (u ++ [n])) ∧
      n ∈ (resolveLoop O q extracted (n :: rest) params u).snd := by
  intro O q extracted n rest params u v err hlkp hstep
  have heq : resolveLoop O q extracted (n :: rest) params u
      = resolveLoop O q extracted rest params (u ++ [n]) := by
    rw [resolveLoop]
    simp only [hlkp, hstep]
  exact ⟨heq, heq ▸ resolveLoop_unres_mono O q extracted rest params (u ++ [n]) n (by simp)⟩

/-- An oracle whose every lookup raises. -/
def O_throws : Oracle :=
  { searchCustomers := fun _ _ => .error "ConnectError",
    getList := fun _ _ _ _ => .error "ConnectError" }

/-- **C2** (witness): a customer search that raises a transport error makes
exactly `customerName` unresolved and the loop continues. -/
theorem C2_failure_isolation_witness :
    (resolveLoop O_throws custQuestion
        [("customerName", Option.some (.pair "Acme Corp" (Val.str "Acme Corp") true false))]
        ["customerName"] [] []
      = resolveLoop O_throws custQuestion
          [("customerName", Option.some (.pair "Acme Corp" (Val.str "Acme Corp") true false))]
          [] [] ["customerName"]) ∧
    "customerName" ∈ (resolveLoop O_throws custQuestion
        [("customerName", Option.some (.pair "Acme Corp" (Val.str "Acme Corp") true false))]
        ["customerName"] [] []).snd :=
  C2_failure_isolation O_throws custQuestion
    [("customerName", Option.some (.pair "Acme Corp" (Val.str "Acme Corp") true false))]
    "customerName" [] [] [] (.pair "Acme Corp" (Val.str "Acme Corp") true false)
    "ConnectError" rfl rfl

/-! ## C10: the extraction map's key set -/


theorem lookup_dictInsert {α : Type} (m : List (String × α)) (k n : String) (v : α) :
    (dictInsert m k v).lookup n = if n == k then Option.some v else m.lookup n := by
  induction m with
  | nil =>
    by_cases h : n = k
    · subst h; simp [dictInsert, List.lookup]
    · simp [dictInsert, List.lookup, beq_eq_false_iff_ne.mpr h]
  | cons kv rest ih =>
    obtain ⟨k', v'⟩ := kv
    by_cases hk : k' = k
    · subst hk
      by_cases hn : n = k'
      · subst hn; simp [dictInsert, List.lookup]
      · simp [dictInsert, List.lookup, beq_eq_false_iff_ne.mpr hn]
    · by_cases hn : n = k'
      · subst hn
        simp [dictInsert, List.lookup, beq_eq_false_iff_ne.mpr hk,
          beq_eq_false_iff_ne.mpr (fun h => hk (h.symm ▸ rfl) : n ≠ k)]
      · simp [dictInsert, List.lookup, beq_eq_false_iff_ne.mpr hk,
          beq_eq_false_iff_ne.mpr hn, ih]


theorem extractOne'_shape (msg : String) (ext : EMap) (p : ParamDef) :
    extractOne' msg ext p = dictInsert ext p.name Option.none ∨
    ∃ v, extractOne' msg ext p
      = dictInsert (dictInsert ext p.name Option.none) p.name v := by
  unfold extractOne'
  dsimp only
  split_ifs <;> (repeat' split) <;>
    first
      | (left; rfl)
      | (right; exact ⟨_, rfl⟩)

theorem extractOne'_lookup_ne (msg : String) (ext : EMap) (p : ParamDef) (n : String)
    (hn : n ≠ p.name) : (extractOne' msg ext p).lookup n = ext.lookup n := by
  have hb : (n == p.name) = false := beq_eq_false_iff_ne.mpr hn
  rcases extractOne'_shape msg ext p with h | ⟨v, h⟩ <;>
    simp [h, lookup_dictInsert, hb]

theorem extractOne'_lookup_self (msg : String) (ext : EMap) (p : ParamDef) :
    ((extractOne' msg ext p).lookup p.name).isSome := by
  rcases extractOne'_shape msg ext p with h | ⟨v, h⟩ <;>
    simp [h, lookup_dictInsert]

theorem extract_keys_aux (msg : String) (n : String) :
    ∀ (pdefs : List ParamDef) (ext : EMap),
      ((pdefs.foldl (extractOne' msg) ext).lookup n).isSome
        ↔ (ext.lookup n).isSome ∨ n ∈ pdefs.map (·.name) := by
  intro pdefs
  induction pdefs with
  | nil => intro ext; simp
  | cons p rest ih =>
    intro ext
    simp only [List.foldl_cons, List.map_cons, List.mem_cons]
    rw [ih]
    by_cases hn : n = p.name
    · subst hn
      simp [extractOne'_lookup_self msg ext p]
    · rw [extractOne'_lookup_ne msg ext p n hn]
      simp only [hn, false_or]

/-- Boolean test: the parameter name has a dedicated extraction branch. -/
def recognizedName (n : String) : Bool :=
  n == "dealId" || n == "opportunityId" || n == "accountId" || n == "customerName"
    || n == "productName" || (STATIC_OPTIONS.lookup n).isSome || n == "service"

theorem extractOne'_unrec (msg : String) (ext : EMap) (p : ParamDef)
    (h1 : recognizedName p.name = false) (h2 : p.subtype ≠ "remote") :
    extractOne' msg ext p = dictInsert ext p.name Option.none := by
  simp only [recognizedName, Bool.or_eq_false_iff, beq_eq_false_iff_ne,
    Option.not_isSome_iff_eq_none, Bool.not_eq_true] at h1
  obtain ⟨⟨⟨⟨⟨⟨hd, ho⟩, ha⟩, hc⟩, hp⟩, hs⟩, hv⟩ := h1
  unfold extractOne'
  dsimp only
  rw [if_neg (by simpa using hd), if_neg (by simpa using ho), if_neg (by simpa using ha),
    if_neg (by simpa using hc), if_neg (by simpa using hp), if_neg (by simp [hs]),
    if_neg (by simpa using hv), if_neg (by simp [beq_eq_false_iff_ne.mpr h2])]

theorem extract_unrec_aux (msg : String) (n : String) :
    ∀ (pdefs : List ParamDef) (ext : EMap),
      (∀ p ∈ pdefs, p.name = n → recognizedName p.name = false ∧ p.subtype ≠ "remote") →
      (pdefs.foldl (extractOne' msg) ext).lookup n
        = if n ∈ pdefs.map (·.name) then Option.some Option.none else ext.lookup n := by
  intro pdefs
  induction pdefs with
  | nil => intro ext h; simp
  | cons p rest ih =>
    intro ext h
    simp only [List.foldl_cons, List.map_cons, List.mem_cons]
    rw [ih _ (fun q hq => h q (by simp [hq]))]
    by_cases hn : n = p.name
    · obtain ⟨h1, h2⟩ := h p (by simp) hn.symm
      rw [extractOne'_unrec msg ext p h1 h2]
      by_cases hr : n ∈ rest.map (·.name)
      · rw [if_pos hr, if_pos (Or.inr hr)]
      · rw [if_neg hr, if_pos (Or.inl hn), hn, lookup_dictInsert]
        simp
    · rw [extractOne'_lookup_ne msg ext p n hn]
      have : (n = p.name ∨ n ∈ rest.map (·.name)) ↔ n ∈ rest.map (·.name) := by
        simp [hn]
      simp only [this]

/-- **C10**: for every message and parameter-definition list, the key set
of the extraction map is exactly the declared parameter names — a name is
a key iff it is declared — and a declared name none of whose definitions
has a recognised name or a remote subtype is mapped to `None`. -/
theorem C10_extraction_key_set :
    (∀ (msg : String) (pdefs : List ParamDef) (n : String),
      ((extract_parameters msg pdefs).lookup n).isSome ↔ n ∈ pdefs.map (·.name)) ∧
    (∀ (msg : String) (pdefs : List ParamDef) (n : String),
      n ∈ pdefs.map (·.name) →
      (∀ p ∈ pdefs, p.name = n → recognizedName p.name = false ∧ p.subtype ≠ "remote") →
      (extract_parameters msg pdefs).lookup n = Option.some Option.none) := by
  constructor
  · intro msg pdefs n
    unfold extract_parameters
    rw [extract_keys_aux msg n pdefs []]
    simp [List.lookup]
  · intro msg pdefs n hmem h
    unfold extract_parameters
    rw [extract_unrec_aux msg n pdefs [] h, if_pos hmem]

/-- **C10** (witness): the key-set theorem applied to a one-parameter
definition list with an unrecognised name. -/
theorem C10_extraction_key_set_witness :
    ((extract_parameters "hello" [{ name := "zzz", subtype := "static" }]).lookup "zzz").isSome
    ∧ (extract_parameters "hello" [{ name := "zzz", subtype := "static" }]).lookup "zzz"
        = Option.some Option.none :=
  ⟨(C10_extraction_key_set.1 "hello" [{ name := "zzz", subtype := "static" }] "zzz").mpr
      (by simp),
   C10_extraction_key_set.2 "hello" [{ name := "zzz", subtype := "static" }] "zzz"
      (by simp) (by decide)⟩

/-! ## C3: dependency-ordered resolution -/


theorem findIdx?_beq_none_aux (n : String) :
    ∀ (l : List String) (i : Nat), ¬ n ∈ l → List.findIdx? (· == n) l i = Option.none := by
  intro l
  induction l with
  | nil => intro i h; rfl
  | cons x xs ih =>
    intro i h
    have hx : (x == n) = false :=
      beq_eq_false_iff_ne.mpr (fun he => h (he ▸ List.mem_cons_self x xs))
    rw [List.findIdx?_cons, hx]
    simp only [Bool.false_eq_true, if_false]
    exact ih (i + 1) (fun hm => h (List.mem_cons_of_mem x hm))

theorem findIdx?_beq_none {l : List String} {n : String} (h : ¬ n ∈ l) :
    l.findIdx? (· == n) = Option.none :=
  findIdx?_beq_none_aux n l 0 h

theorem resolveKey_of_not_mem {n : String} (h : ¬ n ∈ _RESOLVE_ORDER) : resolveKey n = 99 := by
  rw [resolveKey, findIdx?_beq_none h]

theorem resolveKey_lt_of_mem : ∀ n ∈ _RESOLVE_ORDER, resolveKey n < 99 := by decide

theorem resolveKey_le_99 (n : String) : resolveKey n ≤ 99 := by
  by_cases h : n ∈ _RESOLVE_ORDER
  · exact Nat.le_of_lt (resolveKey_lt_of_mem n h)
  · exact Nat.le_of_eq (resolveKey_of_not_mem h)

theorem resolveKey_inj : ∀ a ∈ _RESOLVE_ORDER, ∀ b ∈ _RESOLVE_ORDER,
    resolveKey a = resolveKey b → a = b := by decide

theorem resolveOrder_pairwise_lt :
    _RESOLVE_ORDER.Pairwise (fun a b => resolveKey a < resolveKey b) := by decide

theorem resolveOrder_nodup : _RESOLVE_ORDER.Nodup := by decide

theorem contains_iff_mem (l : List String) (a : String) : l.contains a = true ↔ a ∈ l := by
  simp [List.contains_iff_exists_mem_beq]

theorem contains_false_of_not_mem {l : List String} {a : String} (h : ¬ a ∈ l) :
    l.contains a = false := by
  rw [← Bool.not_eq_true, contains_iff_mem]; exact h

/-- Boolean: the name is absent from the fixed priority list. -/
def unlistedB (y : String) : Bool := !(_RESOLVE_ORDER.contains y)

theorem unlistedB_true {y : String} (h : ¬ y ∈ _RESOLVE_ORDER) : unlistedB y = true := by
  simp [unlistedB, h]

theorem unlistedB_false {y : String} (h : y ∈ _RESOLVE_ORDER) : unlistedB y = false := by
  simp [unlistedB, h]

theorem oi_filter_unlisted (x : String) (hx : ¬ x ∈ _RESOLVE_ORDER) :
    ∀ m : List String,
      (List.orderedInsert (fun a b => resolveKey a ≤ resolveKey b) x m).filter unlistedB
        = x :: m.filter unlistedB := by
  intro m
  induction m with
  | nil =>
    simp [List.orderedInsert, List.filter, unlistedB_true hx]
  | cons y ys ih =>
    by_cases hy : y ∈ _RESOLVE_ORDER
    · have hky := resolveKey_lt_of_mem y hy
      have hkx := resolveKey_of_not_mem hx
      rw [List.orderedInsert, if_neg (by omega)]
      rw [List.filter_cons, List.filter_cons, unlistedB_false hy]
      simpa using ih
    · have hky := resolveKey_of_not_mem hy
      have hkx := resolveKey_of_not_mem hx
      rw [List.orderedInsert, if_pos (by omega)]
      rw [List.filter_cons, unlistedB_true hx]
      rfl

theorem oi_filter_listed (x : String) (hx : x ∈ _RESOLVE_ORDER) :
    ∀ m : List String,
      (List.orderedInsert (fun a b => resolveKey a ≤ resolveKey b) x m).filter unlistedB
        = m.filter unlistedB := by
  intro m
  induction m with
  | nil => simp [List.orderedInsert, List.filter, unlistedB_false hx]
  | cons y ys ih =>
    rw [List.orderedInsert]
    by_cases hr : resolveKey x ≤ resolveKey y
    · rw [if_pos hr]
      rw [List.filter_cons, List.filter_cons, unlistedB_false hx]
      rfl
    · rw [if_neg hr]
      rw [List.filter_cons, List.filter_cons, ih]

theorem orderedNames_filter_unlisted :
    ∀ names : List String,
      (orderedNames names).filter unlistedB = names.filter unlistedB := by
  intro names
  induction names with
  | nil => rfl
  | cons x xs ih =>
    rw [orderedNames, List.insertionSort]
    rw [orderedNames] at ih
    by_cases hx : x ∈ _RESOLVE_ORDER
    · rw [oi_filter_listed x hx, ih, List.filter_cons, unlistedB_false hx]
      simp
    · rw [oi_filter_unlisted x hx, ih, List.filter_cons, unlistedB_true hx]
      simp

/-- Boolean: the name occurs in the fixed priority list. -/
def listedB (y : String) : Bool := _RESOLVE_ORDER.contains y

theorem listedB_true {y : String} (h : y ∈ _RESOLVE_ORDER) : listedB y = true := by
  simp [listedB, h]

theorem listedB_false {y : String} (h : ¬ y ∈ _RESOLVE_ORDER) : listedB y = false := by
  simp [listedB, h]

instance : IsTotal String (fun a b => resolveKey a ≤ resolveKey b) :=
  ⟨fun a b => Nat.le_total _ _⟩

instance : IsTrans String (fun a b => resolveKey a ≤ resolveKey b) :=
  ⟨fun a b c hab hbc => Nat.le_trans hab hbc⟩

instance : IsAntisymm String (fun a b => resolveKey a < resolveKey b) :=
  ⟨fun a b h1 h2 => absurd (Nat.lt_trans h1 h2) (Nat.lt_irrefl _)⟩

theorem orderedNames_perm (names : List String) : List.Perm (orderedNames names) names :=
  List.perm_insertionSort _ _

theorem orderedNames_sorted (names : List String) :
    (orderedNames names).Sorted (fun a b => resolveKey a ≤ resolveKey b) :=
  List.sorted_insertionSort _ _

theorem pairwise_key_lt (m : List String)
    (hs : m.Pairwise (fun a b => resolveKey a ≤ resolveKey b)) (hn : m.Nodup)
    (hm : ∀ y ∈ m, y ∈ _RESOLVE_ORDER) :
    m.Pairwise (fun a b => resolveKey a < resolveKey b) := by
  induction m with
  | nil => exact List.Pairwise.nil
  | cons a l ih =>
    rw [List.pairwise_cons] at hs ⊢
    rw [List.nodup_cons] at hn
    refine ⟨fun b hb => ?_, ih hs.2 hn.2 (fun y hy => hm y (List.mem_cons_of_mem a hy))⟩
    have hle := hs.1 b hb
    have hne : a ≠ b := fun he => hn.1 (he ▸ hb)
    exact Nat.lt_of_le_of_ne hle (fun hk =>
      hne (resolveKey_inj a (hm a (List.mem_cons_self a l)) b
        (hm b (List.mem_cons_of_mem a hb)) hk))

theorem listed_filter_eq (names : List String) (h : names.Nodup) :
    (orderedNames names).filter listedB
      = _RESOLVE_ORDER.filter (fun y => names.contains y) := by
  apply List.eq_of_perm_of_sorted (r := fun a b => resolveKey a < resolveKey b)
  · refine (((orderedNames_perm names).filter _).trans ?_)
    rw [List.perm_ext_iff_of_nodup (h.filter _) (resolveOrder_nodup.filter _)]
    intro a
    simp only [List.mem_filter, listedB, contains_iff_mem]
    exact and_comm
  · refine pairwise_key_lt _ ((orderedNames_sorted names).filter _)
      ((((orderedNames_perm names).nodup_iff).mpr h).filter _) ?_
    intro y hy
    have hf := List.of_mem_filter hy
    exact (contains_iff_mem _ _).mp (by simpa [listedB] using hf)
  · exact resolveOrder_pairwise_lt.filter _

theorem filter_partition (m : List String)
    (hs : m.Sorted (fun a b => resolveKey a ≤ resolveKey b)) :
    m = m.filter listedB ++ m.filter unlistedB := by
  induction m with
  | nil => rfl
  | cons a l ih =>
    rw [List.sorted_cons] at hs
    by_cases ha : a ∈ _RESOLVE_ORDER
    · rw [List.filter_cons, List.filter_cons, listedB_true ha, unlistedB_false ha]
      simpa using congrArg (a :: ·) (ih hs.2)
    · have hall : ∀ y ∈ l, ¬ y ∈ _RESOLVE_ORDER := by
        intro y hy hmem
        have h99 := resolveKey_of_not_mem ha
        have hle := hs.1 y hy
        have hlt := resolveKey_lt_of_mem y hmem
        omega
      have h1 : List.filter listedB (a :: l) = [] := by
        rw [List.filter_eq_nil_iff]
        intro y hy
        rcases List.mem_cons.mp hy with he | hm
        · simp [he ▸ listedB_false ha]
        · simp [listedB_false (hall y hm)]
      have h2 : List.filter unlistedB (a :: l) = a :: l := by
        rw [List.filter_eq_self]
        intro y hy
        rcases List.mem_cons.mp hy with he | hm
        · exact he ▸ unlistedB_true ha
        · exact unlistedB_true (hall y hm)
      rw [h1, h2]
      rfl

theorem orderedNames_characterization (names : List String) (h : names.Nodup) :
    orderedNames names
      = _RESOLVE_ORDER.filter (fun y => names.contains y) ++ names.filter unlistedB := by
  conv_lhs => rw [filter_partition (orderedNames names) (orderedNames_sorted names)]
  rw [listed_filter_eq names h, orderedNames_filter_unlisted]

/-- A question whose `deployment` parameter has no catalog API binding, so
its dependency body comes from the fallback table. -/
def depQuestion : Question :=
  { id := "adoption:question:1", agent := "adoption", backendQuestionId := "q1",
    parameters := [{ name := "customerName" },
                   { name := "deployment", subtype := "remote" }] }

/-- Extraction result: `deployment` needs auto-selection and is listed
first; `customerName` is already resolved. -/
def depExtracted (lc vc : String) : EMap :=
  [("deployment", Option.some ExtractedVal.auto),
   ("customerName", Option.some (.pair lc (Val.str vc) false false))]

theorem dep_resolver (O : Oracle) (lc vc : String) :
    ∀ r, auto_select_remote_param O "adoption" "deployment" "q1"
        (Option.some [("customerName", Val.str vc)]) true = r →
    _resolve_params_with_lookups O depQuestion (depExtracted lc vc)
      = match r with
        | .ok (Option.some vl) =>
            ([("customerName", ⟨lc, Val.str vc, false⟩),
              ("deployment", ⟨vl.snd, valOfOpt vl.fst, false⟩)], [])
        | .ok Option.none => ([("customerName", ⟨lc, Val.str vc, false⟩)], ["deployment"])
        | .error _ => ([("customerName", ⟨lc, Val.str vc, false⟩)], ["deployment"]) := by
  intro r hr
  have h12 : _resolve_params_with_lookups O depQuestion (depExtracted lc vc)
      = match stepResolve O depQuestion [("customerName", ⟨lc, Val.str vc, false⟩)]
          "deployment" ExtractedVal.auto with
        | .error _ => ([("customerName", ⟨lc, Val.str vc, false⟩)], ["deployment"])
        | .ok Option.none => ([("customerName", ⟨lc, Val.str vc, false⟩)], ["deployment"])
        | .ok (Option.some rp) =>
            ([("customerName", ⟨lc, Val.str vc, false⟩), ("deployment", rp)], []) := by
    cases hs : stepResolve O depQuestion [("customerName", ⟨lc, Val.str vc, false⟩)]
        "deployment" ExtractedVal.auto with
    | error e =>
      have : _resolve_params_with_lookups O depQuestion (depExtracted lc vc)
          = resolveLoop O depQuestion (depExtracted lc vc) ["deployment"]
              [("customerName", ⟨lc, Val.str vc, false⟩)] [] := rfl
      rw [this, resolveLoop,
        show (depExtracted lc vc).lookup "deployment"
          = Option.some (Option.some ExtractedVal.auto) from rfl]
      simp only [hs]
      rfl
    | ok a =>
      have : _resolve_params_with_lookups O depQuestion (depExtracted lc vc)
          = resolveLoop O depQuestion (depExtracted lc vc) ["deployment"]
              [("customerName", ⟨lc, Val.str vc, false⟩)] [] := rfl
      rw [this, resolveLoop,
        show (depExtracted lc vc).lookup "deployment"
          = Option.some (Option.some ExtractedVal.auto) from rfl]
      cases a with
      | none => simp only [hs]; rfl
      | some rp => simp only [hs]; rfl
  rw [h12]
  have h3 : stepResolve O depQuestion [("customerName", ⟨lc, Val.str vc, false⟩)]
        "deployment" ExtractedVal.auto
      = Except.bind (Except.bind
          (auto_select_remote_param O "adoption" "deployment" "q1"
            (Option.some [("customerName", Val.str vc)]) true)
          (fun resolved => match resolved with
            | Option.some vl => pure (Option.some (vl.snd, valOfOpt vl.fst, false))
            | Option.none => pure Option.none))
          (fun b => match b with
            | Option.none => pure Option.none
            | Option.some (label, value, hidden) =>
              pure (Option.some ⟨label, value, hidden⟩)) := rfl
  rw [h3, hr]
  cases r with
  | error e => rfl
  | ok a =>
    cases a with
    | none => rfl
    | some vl => rfl

/-- **C3**: the resolver's processing order is the fixed priority list —
`orderedNames` of any duplicate-free key set are exactly the
`_RESOLVE_ORDER` names that occur among the keys, in priority order,
followed by the unlisted names in their encounter order; and in the
fallback dependency scenario (deployment depending on an
already-resolved customer), the resolver resolves `customerName` first,
builds the deployment lookup body from the resolved customer value, and
the deployment outcome is exactly the auto-selection over that body. -/
theorem C3_resolution_order_and_dependencies :
    (∀ names : List String, names.Nodup →
      orderedNames names
        = _RESOLVE_ORDER.filter (fun y => names.contains y)
          ++ names.filter unlistedB) ∧
    (∀ (O : Oracle) (lc vc : String),
      orderedNames (dictKeys (depExtracted lc vc)) = ["customerName", "deployment"] ∧
      _build_dependent_body depQuestion
          [("customerName", ⟨lc, Val.str vc, false⟩)] "deployment"
        = Option.some [("customerName", Val.str vc)] ∧
      ∀ r, auto_select_remote_param O "adoption" "deployment" "q1"
          (Option.some [("customerName", Val.str vc)]) true = r →
        _resolve_params_with_lookups O depQuestion (depExtracted lc vc)
          = match r with
            | .ok (Option.some vl) =>
                ([("customerName", ⟨lc, Val.str vc, false⟩),
                  ("deployment", ⟨vl.snd, valOfOpt vl.fst, false⟩)], [])
            | .ok Option.none =>
                ([("customerName", ⟨lc, Val.str vc, false⟩)], ["deployment"])
            | .error _ =>
                ([("customerName", ⟨lc, Val.str vc, false⟩)], ["deployment"])) :=
  ⟨orderedNames_characterization, fun O lc vc => ⟨rfl, rfl, dep_resolver O lc vc⟩⟩

/-- **C3** (witness): the ordering characterization on a concrete key set
and the dependency scenario run against the two-option oracle. -/
theorem C3_resolution_order_witness :
    (orderedNames ["metrics", "zzz", "customerName"]
      = _RESOLVE_ORDER.filter (fun y => (["metrics", "zzz", "customerName"]).contains y)
        ++ (["metrics", "zzz", "customerName"]).filter unlistedB) ∧
    _resolve_params_with_lookups O_twoDeps depQuestion (depExtracted "Acme" "104461")
      = ([("customerName", ⟨"Acme", Val.str "104461", false⟩),
          ("deployment", ⟨"West", Val.str "west", false⟩)], []) :=
  ⟨C3_resolution_order_and_dependencies.1 ["metrics", "zzz", "customerName"] (by decide),
   (C3_resolution_order_and_dependencies.2 O_twoDeps "Acme" "104461").2.2
     (.ok (Option.some (Option.some "west", "West"))) rfl⟩

/-! ## C7: dealId extraction -/


/-- `\b` before position `i`: at 0 it is the scanner's incoming
previous-character state; past 0 it looks at the character before `i`. -/
def auxBoundary (prev : Bool) (cs : List Char) : Nat → Bool
  | 0 => !prev
  | j+1 =>
    match cs.get? j with
    | Option.some c => !(isWordChar c)
    | Option.none => false

theorem auxBoundary_shift (prev : Bool) (c : Char) (rest : List Char) (i : Nat) :
    auxBoundary prev (c :: rest) (i + 1) = auxBoundary (isWordChar c) rest i := by
  cases i with
  | zero => rfl
  | succ j => rfl

theorem scan_spec {α : Type} (here : List Char → Option α) (hnil : here [] = Option.none) :
    ∀ (cs : List Char) (prev : Bool),
      (∀ r, scan here prev cs = Option.some r →
        ∃ i, auxBoundary prev cs i = true ∧ here (cs.drop i) = Option.some r ∧
          ∀ j, j < i → auxBoundary prev cs j = true → here (cs.drop j) = Option.none) ∧
      (scan here prev cs = Option.none →
        ∀ i, auxBoundary prev cs i = true → here (cs.drop i) = Option.none) := by
  intro cs
  induction cs with
  | nil =>
    intro prev
    constructor
    · intro r h
      cases h
    · intro h i hi
      rw [List.drop_nil]
      exact hnil
  | cons c rest ih =>
    intro prev
    constructor
    · intro r h
      rw [scan] at h
      by_cases hp : prev
      · rw [hp] at h
        simp only [Bool.not_true, Bool.false_eq_true, if_false] at h
        obtain ⟨i, hb, hh, hmin⟩ := (ih (isWordChar c)).1 r h
        refine ⟨i + 1, by rw [auxBoundary_shift]; exact hb, hh, ?_⟩
        intro j hj hbj
        cases j with
        | zero => simp [auxBoundary, hp] at hbj
        | succ k =>
          rw [auxBoundary_shift] at hbj
          exact hmin k (Nat.lt_of_succ_lt_succ hj) hbj
      · rw [Bool.not_eq_true] at hp
        rw [hp] at h
        simp only [Bool.not_false, if_true] at h
        cases hh : here (c :: rest) with
        | some r2 =>
          rw [hh] at h
          cases h
          exact ⟨0, by simp [auxBoundary, hp], hh, fun j hj _ => absurd hj (Nat.not_lt_zero j)⟩
        | none =>
          rw [hh] at h
          obtain ⟨i, hb, hh2, hmin⟩ := (ih (isWordChar c)).1 r h
          refine ⟨i + 1, by rw [auxBoundary_shift]; exact hb, hh2, ?_⟩
          intro j hj hbj
          cases j with
          | zero => exact hh
          | succ k =>
            rw [auxBoundary_shift] at hbj
            exact hmin k (Nat.lt_of_succ_lt_succ hj) hbj
    · intro h i hi
      rw [scan] at h
      by_cases hp : prev
      · rw [hp] at h
        simp only [Bool.not_true, Bool.false_eq_true, if_false] at h
        cases i with
        | zero => simp [auxBoundary, hp] at hi
        | succ k =>
          rw [auxBoundary_shift] at hi
          exact (ih (isWordChar c)).2 h k hi
      · rw [Bool.not_eq_true] at hp
        rw [hp] at h
        simp only [Bool.not_false, if_true] at h
        cases hh : here (c :: rest) with
        | some r2 => rw [hh] at h; cases h
        | none =>
          rw [hh] at h
          cases i with
          | zero => exact hh
          | succ k =>
            rw [auxBoundary_shift] at hi
            exact (ih (isWordChar c)).2 h k hi

/-- The pattern `\bD-\d+\b` matches at position `i`. -/
def dealMatchAt (cs : List Char) (i : Nat) : Bool :=
  auxBoundary false cs i && (dealHere (cs.drop i)).isSome

/-- **C7**: whenever a message contains the pattern `D-` followed by
digits (either letter case, `\b`-delimited) at some position, dealId
extraction returns the textually first such match, uppercased, with label
equal to value; in particular both `"deal D-12345"` and `"deal d-12345"`
extract exactly `D-12345`. -/
theorem C7_dealId_first_match_uppercased :
    (∀ (msg : String) (i : Nat), dealMatchAt msg.data i = true →
      ∃ j n, dealMatchAt msg.data j = true ∧ (∀ k, k < j → dealMatchAt msg.data k = false) ∧
        dealHere (msg.data.drop j) = Option.some n ∧
        (extract_parameters msg [{ name := "dealId" }]).lookup "dealId"
          = Option.some (Option.some (.pair (upperStr (String.mk ((msg.data.drop j).take n)))
              (Val.str (upperStr (String.mk ((msg.data.drop j).take n)))) false false))) ∧
    (extract_parameters "deal D-12345" [{ name := "dealId" }]).lookup "dealId"
      = Option.some (Option.some (.pair "D-12345" (Val.str "D-12345") false false)) ∧
    (extract_parameters "deal d-12345" [{ name := "dealId" }]).lookup "dealId"
      = Option.some (Option.some (.pair "D-12345" (Val.str "D-12345") false false)) := by
  refine ⟨?_, by rfl, by rfl⟩
  intro msg i hi
  have hnil : (fun s : List Char => (dealHere s).map (s.take ·)) [] = Option.none := rfl
  rcases hscan : scan (fun s : List Char => (dealHere s).map (s.take ·)) false msg.data
    with _ | r
  · exfalso
    have hall := (scan_spec _ hnil msg.data false).2 hscan
    rw [dealMatchAt, Bool.and_eq_true] at hi
    have h2 := hall i hi.1
    rw [Option.map_eq_none'] at h2
    rw [h2] at hi
    simp at hi
  · obtain ⟨j, hb, hh, hmin⟩ := (scan_spec _ hnil msg.data false).1 r hscan
    rcases hdh : dealHere (msg.data.drop j) with _ | n
    · rw [hdh] at hh
      cases hh
    · rw [hdh] at hh
      have hr : r = (msg.data.drop j).take n := by
        simpa using hh.symm
      have hfd : findDealId msg.data = Option.some ((msg.data.drop j).take n) := by
        rw [findDealId, hscan, hr]
      have hext : extract_parameters msg [{ name := "dealId" }]
          = [("dealId", Option.some (.pair (upperStr (String.mk ((msg.data.drop j).take n)))
              (Val.str (upperStr (String.mk ((msg.data.drop j).take n)))) false false))] := by
        unfold extract_parameters
        rw [List.foldl_cons, List.foldl_nil]
        unfold extractOne'
        dsimp only
        rw [if_pos (show (("dealId" : String) == "dealId") = true from rfl), hfd]
        rfl
      refine ⟨j, n, ?_, ?_, hdh, by rw [hext]; rfl⟩
      · rw [dealMatchAt, Bool.and_eq_true]
        exact ⟨hb, by rw [hdh]; rfl⟩
      · intro k hk
        rw [dealMatchAt]
        by_cases hbk : auxBoundary false msg.data k = true
        · have hnk := hmin k hk hbk
          rw [Option.map_eq_none'] at hnk
          rw [hbk, hnk]
          rfl
        · rw [Bool.not_eq_true] at hbk
          rw [hbk]
          rfl

/-- **C7** (witness): the first-match theorem applied to the message
`"deal D-12345"` at its matching position 5. -/
theorem C7_dealId_first_match_witness :
    ∃ j n, dealMatchAt ("deal D-12345" : String).data j = true ∧
      (∀ k, k < j → dealMatchAt ("deal D-12345" : String).data k = false) ∧
      dealHere (("deal D-12345" : String).data.drop j) = Option.some n ∧
      (extract_parameters "deal D-12345" [{ name := "dealId" }]).lookup "dealId"
        = Option.some (Option.some (.pair
            (upperStr (String.mk ((("deal D-12345" : String).data.drop j).take n)))
            (Val.str (upperStr (String.mk ((("deal D-12345" : String).data.drop j).take n))))
            false false)) :=
  C7_dealId_first_match_uppercased.1 "deal D-12345" 5 (by rfl)

/-! ## C6: fuzzy question matching -/


theorem rf_stays_some (sc : String → ℚ) (cutoff : ℚ) :
    ∀ (choices : List (String × String)) (b : String × ℚ × String),
      ∃ r, rfExtractOne sc cutoff choices (Option.some b) = Option.some r := by
  intro choices
  induction choices with
  | nil => intro b; exact ⟨b, rfl⟩
  | cons kc rest ih =>
    intro b
    rw [rfExtractOne]
    by_cases h1 : sc kc.snd < cutoff
    · rw [if_pos h1]; exact ih b
    · rw [if_neg h1]
      by_cases h2 : b.snd.fst < sc kc.snd
      · rw [if_pos h2]; exact ih _
      · rw [if_neg h2]; exact ih b

theorem rf_none_iff (sc : String → ℚ) (cutoff : ℚ) :
    ∀ (choices : List (String × String)),
      rfExtractOne sc cutoff choices Option.none = Option.none
        ↔ ∀ c ∈ choices, sc c.snd < cutoff := by
  intro choices
  induction choices with
  | nil => simp [rfExtractOne]
  | cons kc rest ih =>
    rw [rfExtractOne]
    by_cases h1 : sc kc.snd < cutoff
    · rw [if_pos h1, ih]
      constructor
      · intro h c hc
        rcases List.mem_cons.mp hc with he | hm
        · exact he ▸ h1
        · exact h c hm
      · intro h c hc
        exact h c (List.mem_cons_of_mem kc hc)
    · rw [if_neg h1]
      constructor
      · intro h
        obtain ⟨r, hr⟩ := rf_stays_some sc cutoff rest (kc.snd, sc kc.snd, kc.fst)
        rw [hr] at h
        cases h
      · intro h
        exact absurd (h kc (List.mem_cons_self kc rest)) h1

theorem rf_some_go (sc : String → ℚ) (cutoff : ℚ) :
    ∀ (choices : List (String × String)) (b r : String × ℚ × String),
      cutoff ≤ b.snd.fst →
      rfExtractOne sc cutoff choices (Option.some b) = Option.some r →
      cutoff ≤ r.snd.fst ∧ b.snd.fst ≤ r.snd.fst ∧
      (∀ c ∈ choices, sc c.snd ≤ r.snd.fst) ∧
      (r = b ∨ ∃ pre c post, choices = pre ++ c :: post ∧ r = (c.snd, sc c.snd, c.fst) ∧
        (∀ c2 ∈ pre, sc c2.snd < sc c.snd) ∧ b.snd.fst < sc c.snd) := by
  intro choices
  induction choices with
  | nil =>
    intro b r hb h
    rw [rfExtractOne] at h
    cases h
    exact ⟨hb, le_refl _, by simp, Or.inl rfl⟩
  | cons kc rest ih =>
    intro b r hb h
    rw [rfExtractOne] at h
    by_cases h1 : sc kc.snd < cutoff
    · rw [if_pos h1] at h
      obtain ⟨hc, hbr, hall, hfirst⟩ := ih b r hb h
      refine ⟨hc, hbr, ?_, ?_⟩
      · intro c hcm
        rcases List.mem_cons.mp hcm with he | hm
        · exact he ▸ le_trans (le_of_lt h1) hc
        · exact hall c hm
      · rcases hfirst with he | ⟨pre, c, post, hsplit, hr, hpre, hbc⟩
        · exact Or.inl he
        · refine Or.inr ⟨kc :: pre, c, post, by rw [hsplit]; rfl, hr, ?_, hbc⟩
          intro c2 hc2
          rcases List.mem_cons.mp hc2 with he2 | hm2
          · subst he2
            calc sc c2.snd < cutoff := h1
              _ ≤ b.snd.fst := hb
              _ < sc c.snd := hbc
          · exact hpre c2 hm2
    · rw [if_neg h1] at h
      by_cases h2 : b.snd.fst < sc kc.snd
      · rw [if_pos h2] at h
        obtain ⟨hc, hbr, hall, hfirst⟩ := ih (kc.snd, sc kc.snd, kc.fst) r (le_of_not_lt h1) h
        refine ⟨hc, le_trans (le_of_lt h2) hbr, ?_, ?_⟩
        · intro c hcm
          rcases List.mem_cons.mp hcm with he | hm
          · exact he ▸ hbr
          · exact hall c hm
        · rcases hfirst with he | ⟨pre, c, post, hsplit, hr, hpre, hbc⟩
          · exact Or.inr ⟨[], kc, rest, rfl, he, by simp, h2⟩
          · refine Or.inr ⟨kc :: pre, c, post, by rw [hsplit]; rfl, hr, ?_, lt_trans h2 hbc⟩
            intro c2 hc2
            rcases List.mem_cons.mp hc2 with he2 | hm2
            · exact he2 ▸ hbc
            · exact hpre c2 hm2
      · rw [if_neg h2] at h
        obtain ⟨hc, hbr, hall, hfirst⟩ := ih b r hb h
        refine ⟨hc, hbr, ?_, ?_⟩
        · intro c hcm
          rcases List.mem_cons.mp hcm with he | hm
          · exact he ▸ le_trans (le_of_not_lt h2) hbr
          · exact hall c hm
        · rcases hfirst with he | ⟨pre, c, post, hsplit, hr, hpre, hbc⟩
          · exact Or.inl he
          · refine Or.inr ⟨kc :: pre, c, post, by rw [hsplit]; rfl, hr, ?_, hbc⟩
            intro c2 hc2
            rcases List.mem_cons.mp hc2 with he2 | hm2
            · subst he2
              exact lt_of_le_of_lt (le_of_not_lt h2) hbc
            · exact hpre c2 hm2

theorem rf_some_char (sc : String → ℚ) (cutoff : ℚ) :
    ∀ (choices : List (String × String)) (r : String × ℚ × String),
      rfExtractOne sc cutoff choices Option.none = Option.some r →
      cutoff ≤ r.snd.fst ∧ (∀ c ∈ choices, sc c.snd ≤ r.snd.fst) ∧
      ∃ pre c post, choices = pre ++ c :: post ∧ r = (c.snd, sc c.snd, c.fst) ∧
        ∀ c2 ∈ pre, sc c2.snd < sc c.snd := by
  intro choices
  induction choices with
  | nil =>
    intro r h
    rw [rfExtractOne] at h
    cases h
  | cons kc rest ih =>
    intro r h
    rw [rfExtractOne] at h
    by_cases h1 : sc kc.snd < cutoff
    · rw [if_pos h1] at h
      obtain ⟨hc, hall, pre, c, post, hsplit, hr, hpre⟩ := ih r h
      have hcs : cutoff ≤ sc c.snd := by
        rw [hr] at hc
        exact hc
      refine ⟨hc, ?_, kc :: pre, c, post, by rw [hsplit]; rfl, hr, ?_⟩
      · intro c2 hc2
        rcases List.mem_cons.mp hc2 with he | hm
        · exact he ▸ le_trans (le_of_lt h1) hc
        · exact hall c2 hm
      · intro c2 hc2
        rcases List.mem_cons.mp hc2 with he | hm
        · exact he ▸ lt_of_lt_of_le h1 hcs
        · exact hpre c2 hm
    · rw [if_neg h1] at h
      obtain ⟨hc, hbr, hall, hfirst⟩ :=
        rf_some_go sc cutoff rest (kc.snd, sc kc.snd, kc.fst) r (le_of_not_lt h1) h
      refine ⟨hc, ?_, ?_⟩
      · intro c2 hc2
        rcases List.mem_cons.mp hc2 with he | hm
        · exact he ▸ hbr
        · exact hall c2 hm
      · rcases hfirst with he | ⟨pre, c, post, hsplit, hr, hpre, hbc⟩
        · exact ⟨[], kc, rest, rfl, he, by simp⟩
        · refine ⟨kc :: pre, c, post, by rw [hsplit]; rfl, hr, ?_⟩
          intro c2 hc2
          rcases List.mem_cons.mp hc2 with he2 | hm2
          · exact he2 ▸ hbc
          · exact hpre c2 hm2

theorem lookup_append_none {α : Type} (m1 m2 : List (String × α)) (k : String)
    (h : m1.lookup k = Option.none) : (m1 ++ m2).lookup k = m2.lookup k := by
  induction m1 with
  | nil => rfl
  | cons kv rest ih =>
    obtain ⟨k', v'⟩ := kv
    by_cases hk : k = k'
    · subst hk
      simp [List.lookup] at h
    · rw [List.cons_append]
      have hb : (k == k') = false := beq_eq_false_iff_ne.mpr hk
      simp only [List.lookup, hb] at h ⊢
      exact ih h

theorem dictInsert_fresh {α : Type} (m : List (String × α)) (k : String) (v : α)
    (h : m.lookup k = Option.none) : dictInsert m k v = m ++ [(k, v)] := by
  induction m with
  | nil => rfl
  | cons kv rest ih =>
    obtain ⟨k', v'⟩ := kv
    by_cases hk : k = k'
    · subst hk
      simp [List.lookup] at h
    · have hb : (k == k') = false := beq_eq_false_iff_ne.mpr hk
      have hb2 : (k' == k) = false := beq_eq_false_iff_ne.mpr (Ne.symm hk)
      simp only [List.lookup, hb] at h
      simp only [dictInsert, hb2, Bool.false_eq_true, if_false, List.cons_append]
      rw [ih h]

theorem buildChoices_go :
    ∀ (l : List Question) (acc : List (String × String)),
      (∀ q ∈ l, acc.lookup q.id = Option.none) → (l.map (·.id)).Nodup →
      l.foldl (fun m q => dictInsert m q.id (q.label ++ " " ++ q.questionTemplate)) acc
        = acc ++ l.map (fun q => (q.id, q.label ++ " " ++ q.questionTemplate)) := by
  intro l
  induction l with
  | nil => intro acc h hn; simp
  | cons x rest ih =>
    intro acc h hn
    rw [List.map_cons, List.nodup_cons] at hn
    rw [List.foldl_cons, dictInsert_fresh acc x.id _ (h x (List.mem_cons_self x rest))]
    rw [ih (acc ++ [(x.id, x.label ++ " " ++ x.questionTemplate)]) ?_ hn.2]
    · rw [List.append_assoc, List.map_cons]
      rfl
    · intro q hq
      rw [lookup_append_none _ _ _ (h q (List.mem_cons_of_mem x hq))]
      have hne : (q.id == x.id) = false := beq_eq_false_iff_ne.mpr
        (fun he => hn.1 (he ▸ List.mem_map_of_mem (·.id) hq))
      simp [List.lookup, hne]

theorem buildChoices_eq (catalog : List Question) (h : (catalog.map (·.id)).Nodup) :
    buildChoices catalog
      = catalog.map (fun q => (q.id, q.label ++ " " ++ q.questionTemplate)) := by
  rw [buildChoices, buildChoices_go catalog [] (fun q _ => rfl) h]
  rfl

theorem find_best_eq (sc : String → String → ℚ) (catalog : List Question)
    (msg : String) (th : ℚ) :
    find_best_question sc catalog msg th
      = match rfExtractOne (sc msg) th (buildChoices catalog) Option.none with
        | Option.none => Option.none
        | Option.some r => catalog.find? (fun q => q.id == r.snd.snd) := rfl

/-- **C6**: for every message, threshold and scorer, the matcher returns
`None` (rather than raising) exactly when no catalog entry's composite
text reaches the threshold, and otherwise returns an entry whose score
meets the threshold, is maximal over the catalog, and which is the first
entry of the catalog iteration order attaining that score (ties broken in
favour of earlier entries).  The catalog ids are assumed distinct, as the
choices are keyed by id in a dict. -/
theorem C6_question_matcher :
    ∀ (score : String → String → ℚ) (catalog : List Question) (message : String)
      (threshold : ℚ), (catalog.map (·.id)).Nodup →
      (find_best_question score catalog message threshold = Option.none ↔
        ∀ q ∈ catalog,
          score message (q.label ++ " " ++ q.questionTemplate) < threshold) ∧
      (∀ q, find_best_question score catalog message threshold = Option.some q →
        threshold ≤ score message (q.label ++ " " ++ q.questionTemplate) ∧
        (∀ q2 ∈ catalog, score message (q2.label ++ " " ++ q2.questionTemplate)
          ≤ score message (q.label ++ " " ++ q.questionTemplate)) ∧
        ∃ pre post, catalog = pre ++ q :: post ∧
          ∀ q2 ∈ pre, score message (q2.label ++ " " ++ q2.questionTemplate)
            < score message (q.label ++ " " ++ q.questionTemplate)) := by
  intro sc catalog msg th hnd
  have hch := buildChoices_eq catalog hnd
  have hsome : ∀ r, rfExtractOne (sc msg) th (buildChoices catalog) Option.none
      = Option.some r →
      ∃ q preQ postQ, catalog = preQ ++ q :: postQ ∧
        catalog.find? (fun q2 => q2.id == r.snd.snd) = Option.some q ∧
        th ≤ sc msg (q.label ++ " " ++ q.questionTemplate) ∧
        (∀ q2 ∈ catalog, sc msg (q2.label ++ " " ++ q2.questionTemplate)
          ≤ sc msg (q.label ++ " " ++ q.questionTemplate)) ∧
        (∀ q2 ∈ preQ, sc msg (q2.label ++ " " ++ q2.questionTemplate)
          < sc msg (q.label ++ " " ++ q.questionTemplate)) := by
    intro r hrf
    obtain ⟨hc, hall, pre, c, post, hsplit, hr, hpre⟩ := rf_some_char (sc msg) th _ r hrf
    rw [hch, List.map_eq_append_iff] at hsplit
    obtain ⟨preQ, rest1, hcat1, hpreQ, hrest1⟩ := hsplit
    rw [List.map_eq_cons_iff] at hrest1
    obtain ⟨q, postQ, hrest2, hcq, hpostQ⟩ := hrest1
    have hcat : catalog = preQ ++ q :: postQ := by rw [hcat1, hrest2]
    have hcsnd : c.snd = q.label ++ " " ++ q.questionTemplate := by rw [← hcq]
    have hrscore : r.snd.fst = sc msg (q.label ++ " " ++ q.questionTemplate) := by
      rw [hr, ← hcsnd]
    have hrid : r.snd.snd = q.id := by rw [hr, ← hcq]
    refine ⟨q, preQ, postQ, hcat, ?_, ?_, ?_, ?_⟩
    · rw [hrid, hcat]
      refine find?_pre (fun q2 => q2.id == q.id) preQ q postQ ?_ (by simp)
      intro x hx
      refine beq_eq_false_iff_ne.mpr (fun he => ?_)
      rw [hcat, List.map_append, List.map_cons, List.nodup_append] at hnd
      exact hnd.2.2 (he ▸ List.mem_map_of_mem (·.id) hx) (List.mem_cons_self _ _)
    · rw [← hrscore]; exact hc
    · intro q2 hq2
      rw [← hrscore]
      have : (q2.id, q2.label ++ " " ++ q2.questionTemplate) ∈ buildChoices catalog := by
        rw [hch]
        exact List.mem_map_of_mem _ hq2
      exact hall _ this
    · intro q2 hq2
      have : (q2.id, q2.label ++ " " ++ q2.questionTemplate) ∈ pre := by
        rw [hpreQ.symm] at *
        exact hpreQ ▸ List.mem_map_of_mem (fun q => (q.id, q.label ++ " " ++ q.questionTemplate)) hq2
      have h2 := hpre _ this
      rw [hcsnd] at h2
      exact h2
  constructor
  · constructor
    · intro h q hq
      cases hrf : rfExtractOne (sc msg) th (buildChoices catalog) Option.none with
      | none =>
        have hlow := (rf_none_iff (sc msg) th (buildChoices catalog)).mp hrf
        have : (q.id, q.label ++ " " ++ q.questionTemplate) ∈ buildChoices catalog := by
          rw [hch]
          exact List.mem_map_of_mem _ hq
        exact hlow _ this
      | some r =>
        exfalso
        obtain ⟨q2, preQ, postQ, hcat, hfind, _, _, _⟩ := hsome r hrf
        rw [find_best_eq, hrf] at h
        have h2 : catalog.find? (fun q3 => q3.id == r.snd.snd) = Option.none := h
        rw [hfind] at h2
        cases h2
    · intro h
      cases hrf : rfExtractOne (sc msg) th (buildChoices catalog) Option.none with
      | none => rw [find_best_eq, hrf]
      | some r =>
        exfalso
        obtain ⟨q2, preQ, postQ, hcat, hfind, hth, _, _⟩ := hsome r hrf
        have hq2m : q2 ∈ catalog := by
          rw [hcat]
          exact List.mem_append_right _ (List.mem_cons_self _ _)
        exact absurd (h q2 hq2m) (not_lt.mpr hth)
  · intro q hq
    cases hrf : rfExtractOne (sc msg) th (buildChoices catalog) Option.none with
    | none =>
      rw [find_best_eq, hrf] at hq
      cases hq
    | some r =>
      obtain ⟨q2, preQ, postQ, hcat, hfind, hth, hmax, hfst⟩ := hsome r hrf
      rw [find_best_eq, hrf] at hq
      have hq2 : catalog.find? (fun q3 => q3.id == r.snd.snd) = Option.some q := hq
      rw [hfind] at hq2
      cases hq2
      exact ⟨hth, hmax, preQ, postQ, hcat, hfst⟩

/-- A two-entry catalog for the matcher witness. -/
def qaW : Question := { id := "a", label := "alpha", questionTemplate := "one" }

def qbW : Question := { id := "b", label := "beta", questionTemplate := "two" }

def catW : List Question := [qaW, qbW]

/-- A concrete scorer favouring the second entry. -/
def scoreW : String → String → ℚ := fun _ c => if c == "beta two" then 90 else 10

/-- **C6** (witness): the matcher theorem applied to a concrete catalog,
scorer and threshold where the second entry wins. -/
theorem C6_question_matcher_witness :
    (50 : ℚ) ≤ scoreW "hi" (qbW.label ++ " " ++ qbW.questionTemplate) ∧
    (∀ q2 ∈ catW, scoreW "hi" (q2.label ++ " " ++ q2.questionTemplate)
      ≤ scoreW "hi" (qbW.label ++ " " ++ qbW.questionTemplate)) ∧
    ∃ pre post, catW = pre ++ qbW :: post ∧
      ∀ q2 ∈ pre, scoreW "hi" (q2.label ++ " " ++ q2.questionTemplate)
        < scoreW "hi" (qbW.label ++ " " ++ qbW.questionTemplate) :=
  (C6_question_matcher scoreW catW "hi" 50 (by decide)).2 qbW (by rfl)

/-! ## C9: nullability of resolved values -/

def Val.isNone : Val → Bool
  | Val.none => true
  | _ => false

/-- A well-formed extraction entry: if it is a `{label, value, ...}` dict,
its `value` is not `None` (the extractors only ever store strings there). -/
def goodEV : Option ExtractedVal → Bool
  | Option.some (.pair _ v _ _) => !v.isNone
  | _ => true

/-- Every entry of the extraction map is well-formed. -/
def ExtractedGood (e : EMap) : Prop := ∀ x ∈ e, goodEV x.snd = true

/-- The lookup layer never hands the resolver an option whose `value`
field is `None` (a JSON `null`).  This is an assumption on the backend
data: `search_customers` itself can pass a `null` through — see the
counterexample. -/
def OracleNonNull (O : Oracle) : Prop :=
  (∀ qid lbl opts, O.searchCustomers qid lbl = .ok opts →
    ∀ o ∈ opts, o.value.isSome = true) ∧
  (∀ ep me qid b opts, O.getList ep me qid b = .ok opts →
    ∀ o ∈ opts, o.value.isSome = true)

theorem mem_dictInsert {α : Type} :
    ∀ (m : List (String × α)) (k : String) (v : α) (x : String × α),
      x ∈ dictInsert m k v → x ∈ m ∨ x = (k, v) := by
  intro m k v
  induction m with
  | nil =>
    intro x hx
    rw [dictInsert] at hx
    right
    simpa using hx
  | cons kv rest ih =>
    intro x hx
    obtain ⟨k1, v1⟩ := kv
    rw [dictInsert] at hx
    by_cases h : (k1 == k) = true
    · rw [if_pos h] at hx
      rcases List.mem_cons.mp hx with h1 | h1
      · exact Or.inr h1
      · exact Or.inl (List.mem_cons_of_mem _ h1)
    · rw [if_neg h] at hx
      rcases List.mem_cons.mp hx with h1 | h1
      · exact Or.inl (by rw [h1]; exact List.mem_cons_self _ _)
      · rcases ih x h1 with h2 | h2
        · exact Or.inl (List.mem_cons_of_mem _ h2)
        · exact Or.inr h2

theorem lookup_mem {α : Type} :
    ∀ (m : List (String × α)) (k : String) (v : α),
      m.lookup k = Option.some v → (k, v) ∈ m := by
  intro m k v
  induction m with
  | nil => intro h; cases h
  | cons kv rest ih =>
    intro h
    obtain ⟨k1, v1⟩ := kv
    cases hk : k == k1 with
    | true =>
      simp only [List.lookup, hk] at h
      injection h with h
      rw [beq_iff_eq.mp hk, ← h]
      exact List.mem_cons_self _ _
    | false =>
      simp only [List.lookup, hk] at h
      exact List.mem_cons_of_mem _ (ih h)

theorem except_bind_ok {α β : Type} (x : Except String α) (f : α → Except String β) (b : β)
    (h : x.bind f = .ok b) : ∃ a, x = .ok a ∧ f a = .ok b := by
  cases x with
  | error e => simp [Except.bind] at h
  | ok a => exact ⟨a, rfl, h⟩

theorem valOfOpt_isNone (v : Option String) (h : v.isSome = true) :
    (valOfOpt v).isNone = false := by
  cases v with
  | none => cases h
  | some s => rfl

theorem valueVal_isNone (o : Opt) (h : o.value.isSome = true) :
    o.valueVal.isNone = false := by
  unfold Opt.valueVal
  cases hv : o.value with
  | none => rw [hv] at h; cases h
  | some s => rfl

theorem goodEV_customer (m : String) : goodEV (_extract_customer m) = true := by
  unfold _extract_customer
  split
  · rfl
  · split
    · rfl
    · rfl

theorem goodEV_product (m : String) : goodEV (_extract_product m) = true := by
  unfold _extract_product
  dsimp only
  split
  · rfl
  · split
    · rfl
    · split
      · rfl
      · rfl

theorem goodEV_static (pn m : String) (pd : ParamDef) :
    goodEV (_extract_static pn m pd) = true := by
  unfold _extract_static
  dsimp only
  split
  · rename_i r heq
    split at heq
    · cases heq
    · obtain ⟨opt, hfind, hr⟩ := Option.map_eq_some'.mp heq
      rw [← hr]
      rfl
  · split
    · rfl
    · rfl

theorem extractOne'_good (msg : String) (ext : EMap) (p : ParamDef)
    (h : ∀ x ∈ ext, goodEV x.snd = true) :
    ∀ x ∈ extractOne' msg ext p, goodEV x.snd = true := by
  have hins : ∀ (m : EMap) (k : String) (v : Option ExtractedVal),
      (∀ x ∈ m, goodEV x.snd = true) → goodEV v = true →
      ∀ x ∈ dictInsert m k v, goodEV x.snd = true := by
    intro m k v hm hv x hx
    rcases mem_dictInsert m k v x hx with h1 | h1
    · exact hm x h1
    · rw [h1]
      exact hv
  unfold extractOne'
  dsimp only
  split_ifs <;> (repeat' split) <;>
    first
      | exact hins _ _ _ h rfl
      | exact hins _ _ _ (hins _ _ _ h rfl) rfl
      | exact hins _ _ _ (hins _ _ _ h rfl) (goodEV_customer msg)
      | exact hins _ _ _ (hins _ _ _ h rfl) (goodEV_product msg)
      | exact hins _ _ _ (hins _ _ _ h rfl) (goodEV_static _ msg p)

theorem extract_good_aux (msg : String) :
    ∀ (pds : List ParamDef) (ext : EMap), (∀ x ∈ ext, goodEV x.snd = true) →
      ∀ x ∈ pds.foldl (extractOne' msg) ext, goodEV x.snd = true := by
  intro pds
  induction pds with
  | nil =>
    intro ext h
    simpa using h
  | cons p rest ih =>
    intro ext h
    rw [List.foldl_cons]
    exact ih _ (extractOne'_good msg ext p h)

theorem rrpRest_value (pn : String) (ut : Except String String) (opts : List Opt)
    (v : Option String) (lbl : String)
    (h : rrpRest pn ut opts = .ok (Option.some (v, lbl))) :
    ∃ o ∈ opts, v = o.value := by
  unfold rrpRest at h
  split at h
  · simp at h
  · split at h
    · simp at h
    · dsimp only at h
      split at h
      · rename_i opt heq
        simp only [Except.ok.injEq, Option.some.injEq, Prod.mk.injEq] at h
        refine ⟨opt, ?_, h.1.symm⟩
        split at heq
        · exact List.mem_of_find?_eq_some heq
        · cases heq
      · split at h
        · rename_i opt heq
          simp only [Except.ok.injEq, Option.some.injEq, Prod.mk.injEq] at h
          exact ⟨opt, List.mem_of_find?_eq_some heq, h.1.symm⟩
        · split at h
          · rename_i opt heq
            simp only [Except.ok.injEq, Option.some.injEq, Prod.mk.injEq] at h
            exact ⟨opt, List.mem_of_find?_eq_some heq, h.1.symm⟩
          · simp at h

theorem asrpRest_value (pn : String) (pp : Bool) (opts : List Opt)
    (v : Option String) (lbl : String)
    (h : asrpRest pn pp opts = .ok (Option.some (v, lbl))) :
    ∃ o ∈ opts, v = o.value := by
  unfold asrpRest at h
  split at h
  · simp at h
  · rename_i o0 os
    split at h
    · split at h
      · rename_i o heq
        simp only [Except.ok.injEq, Option.some.injEq, Prod.mk.injEq] at h
        exact ⟨o, List.mem_of_find?_eq_some heq, h.1.symm⟩
      · split at h
        · rename_i o heq
          simp only [Except.ok.injEq, Option.some.injEq, Prod.mk.injEq] at h
          exact ⟨o, List.mem_of_find?_eq_some heq, h.1.symm⟩
        · simp only [Except.ok.injEq, Option.some.injEq, Prod.mk.injEq] at h
          exact ⟨o0, List.mem_cons_self _ _, h.1.symm⟩
    · simp only [Except.ok.injEq, Option.some.injEq, Prod.mk.injEq] at h
      exact ⟨o0, List.mem_cons_self _ _, h.1.symm⟩

theorem resolve_remote_value (O : Oracle) (agent pn qid : String)
    (ut : Except String String) (dep : Option Body) (v : Option String) (lbl : String)
    (h : resolve_remote_param O agent pn qid ut dep = .ok (Option.some (v, lbl))) :
    ∃ ep me opts o, O.getList ep me qid dep = .ok opts ∧ o ∈ opts ∧ v = o.value := by
  unfold resolve_remote_param at h
  split at h
  · simp at h
  · obtain ⟨opts, hg, hrest⟩ := except_bind_ok _ _ _ h
    obtain ⟨o, hmem, hv⟩ := rrpRest_value pn ut opts v lbl hrest
    exact ⟨_, _, opts, o, hg, hmem, hv⟩

theorem auto_select_value (O : Oracle) (agent pn qid : String)
    (dep : Option Body) (pp : Bool) (v : Option String) (lbl : String)
    (h : auto_select_remote_param O agent pn qid dep pp = .ok (Option.some (v, lbl))) :
    ∃ ep me opts o, O.getList ep me qid dep = .ok opts ∧ o ∈ opts ∧ v = o.value := by
  unfold auto_select_remote_param at h
  split at h
  · simp at h
  · obtain ⟨opts, hg, hrest⟩ := except_bind_ok _ _ _ h
    obtain ⟨o, hmem, hv⟩ := asrpRest_value pn pp opts v lbl hrest
    exact ⟨_, _, opts, o, hg, hmem, hv⟩

theorem stepBranch_value (O : Oracle) (q : Question) (params : PMap) (n : String)
    (v : ExtractedVal) (hO : OracleNonNull O) (hv : goodEV (Option.some v) = true)
    (lbl : String) (value : Val) (hid : Bool)
    (h : stepBranch O q params n v = .ok (Option.some (lbl, value, hid))) :
    value.isNone = false := by
  cases v with
  | auto =>
    unfold stepBranch at h
    dsimp only at h
    rw [Bool.and_false, if_neg Bool.false_ne_true, if_pos rfl] at h
    obtain ⟨resolved, hA, hk⟩ := except_bind_ok _ _ _ h
    cases resolved with
    | none => simp at hk
    | some vl =>
      obtain ⟨v0, l0⟩ := vl
      simp only [Except.ok.injEq, Option.some.injEq, Prod.mk.injEq] at hk
      rw [← hk.2.1]
      obtain ⟨ep, me, opts, o, hg, hmem, hv0⟩ := auto_select_value _ _ _ _ _ _ _ _ hA
      rw [hv0]
      exact valOfOpt_isNone _ (hO.2 _ _ _ _ _ hg o hmem)
  | pair l val0 nr hd =>
    have hval0 : val0.isNone = false := by simpa [goodEV] using hv
    unfold stepBranch at h
    dsimp only at h
    by_cases h1 : (n == "customerName" && nr) = true
    · rw [if_pos h1] at h
      obtain ⟨results, hS, hk⟩ := except_bind_ok _ _ _ h
      cases results with
      | nil => simp at hk
      | cons r0 rs =>
        simp only [Except.ok.injEq, Option.some.injEq, Prod.mk.injEq] at hk
        rw [← hk.2.1]
        exact valueVal_isNone r0 (hO.1 _ _ _ hS r0 (List.mem_cons_self _ _))
    · rw [if_neg h1, if_neg Bool.false_ne_true] at h
      by_cases h2 : nr = true
      · rw [if_pos h2] at h
        obtain ⟨r, hR, h3⟩ := except_bind_ok _ _ _ h
        obtain ⟨r2, hm, h4⟩ := except_bind_ok _ _ _ h3
        cases r2 with
        | none => simp at h4
        | some vl =>
          obtain ⟨v0, l0⟩ := vl
          simp only [Except.ok.injEq, Option.some.injEq, Prod.mk.injEq] at h4
          rw [← h4.2.1]
          cases r with
          | some x =>
            simp only [Except.ok.injEq, Option.some.injEq] at hm
            rw [hm] at hR
            obtain ⟨ep, me, opts, o, hg, hmem, hv0⟩ := resolve_remote_value _ _ _ _ _ _ _ _ hR
            rw [hv0]
            exact valOfOpt_isNone _ (hO.2 _ _ _ _ _ hg o hmem)
          | none =>
            dsimp only at hm
            split at hm
            · obtain ⟨ep, me, opts, o, hg, hmem, hv0⟩ := auto_select_value _ _ _ _ _ _ _ _ hm
              rw [hv0]
              exact valOfOpt_isNone _ (hO.2 _ _ _ _ _ hg o hmem)
            · simp at hm
      · rw [if_neg h2] at h
        split at h
        · rename_i pd hpd
          split at h
          · obtain ⟨resolved, hR, hk⟩ := except_bind_ok _ _ _ h
            cases resolved with
            | none => simp at hk
            | some vl =>
              obtain ⟨v0, l0⟩ := vl
              simp only [Except.ok.injEq, Option.some.injEq, Prod.mk.injEq] at hk
              rw [← hk.2.1]
              obtain ⟨ep, me, opts, o, hg, hmem, hv0⟩ :=
                resolve_remote_value _ _ _ _ _ _ _ _ hR
              rw [hv0]
              exact valOfOpt_isNone _ (hO.2 _ _ _ _ _ hg o hmem)
          · simp only [Except.ok.injEq, Option.some.injEq, Prod.mk.injEq] at h
            rw [← h.2.1]
            exact hval0
        · simp only [Except.ok.injEq, Option.some.injEq, Prod.mk.injEq] at h
          rw [← h.2.1]
          exact hval0

theorem stepResolve_value (O : Oracle) (q : Question) (params : PMap) (n : String)
    (v : ExtractedVal) (hO : OracleNonNull O) (hv : goodEV (Option.some v) = true)
    (rp : ResolvedParam) (h : stepResolve O q params n v = .ok (Option.some rp)) :
    rp.value.isNone = false := by
  unfold stepResolve at h
  obtain ⟨b, hB, hF⟩ := except_bind_ok _ _ _ h
  cases b with
  | none => simp [stepFinish] at hF
  | some tr =>
    obtain ⟨lbl, value, hid⟩ := tr
    have hval : value.isNone = false := stepBranch_value O q params n v hO hv lbl value hid hB
    unfold stepFinish at hF
    dsimp only at hF
    simp only [Except.ok.injEq, Option.some.injEq] at hF
    rw [← hF]
    dsimp only
    split <;> (try split) <;> first | rfl | exact hval

theorem resolveLoop_values (O : Oracle) (q : Question) (e : EMap)
    (hO : OracleNonNull O) (hE : ∀ x ∈ e, goodEV x.snd = true) :
    ∀ (names : List String) (params : PMap),
      (∀ x ∈ params, x.snd.value.isNone = false) →
      ∀ (u : List String) (x : String × ResolvedParam),
        x ∈ (resolveLoop O q e names params u).fst → x.snd.value.isNone = false := by
  intro names
  induction names with
  | nil =>
    intro params hp u x hx
    rw [resolveLoop] at hx
    exact hp x hx
  | cons n rest ih =>
    intro params hp u x hx
    rw [resolveLoop] at hx
    cases hl : e.lookup n with
    | none =>
      simp only [hl] at hx
      exact ih params hp u x hx
    | some vOpt =>
      cases vOpt with
      | none =>
        simp only [hl] at hx
        exact ih params hp (u ++ [n]) x hx
      | some v =>
        simp only [hl] at hx
        cases hs : stepResolve O q params n v with
        | error err =>
          simp only [hs] at hx
          exact ih params hp (u ++ [n]) x hx
        | ok ro =>
          cases ro with
          | none =>
            simp only [hs] at hx
            exact ih params hp (u ++ [n]) x hx
          | some rp =>
            simp only [hs] at hx
            have hgood : goodEV (Option.some v) = true :=
              hE (n, Option.some v) (lookup_mem e n (Option.some v) hl)
            refine ih (dictInsert params n rp) ?_ u x hx
            intro y hy
            rcases mem_dictInsert params n rp y hy with h1 | h1
            · exact hp y h1
            · rw [h1]
              exact stepResolve_value O q params n v hO hgood rp hs

/-- An oracle whose customer search succeeds with an option whose `value`
field is `None` — exactly what `search_customers` produces when the
backend returns a JSON `null` in the value field. -/
def O_nullVal : Oracle :=
  { searchCustomers := fun _ _ => .ok [{ label := "X", value := Option.none }],
    getList := fun _ _ _ _ => .ok [] }

/-- **C9** (counterexample): the invariant "no entry of the final resolved
parameter map has a `None` value" is not unconditional: `search_customers`
passes an explicit JSON `null` value field through unchanged, and the
resolver then stores the option's `None` value in the final map for
`customerName`. -/
theorem C9_null_value_reaches_map :
    search_customers (.ok ⟨200, .ok (J.obj [("results",
        J.arr [J.obj [("label", J.str "X"), ("value", J.null)]])])⟩)
      = .ok [{ label := J.str "X", value := J.null }] ∧
    _resolve_params_with_lookups O_nullVal custQuestion
        (extract_parameters "sentiment for Acme Corp" custQuestion.parameters)
      = ([("customerName", ⟨"X", Val.none, false⟩)], []) :=
  ⟨rfl, rfl⟩

/-- **C9** (amended): the extraction layer always produces well-formed
entries (their `value` is never `None`), and whenever the lookup layer
never returns an option whose `value` field is `None`, every entry of the
final resolved parameter map has a non-`None` value.  The lookup-layer
hypothesis is necessary — see the counterexample. -/
theorem C9_resolved_values_nonnull :
    (∀ (msg : String) (pds : List ParamDef), ExtractedGood (extract_parameters msg pds)) ∧
    (∀ (O : Oracle) (question : Question) (extracted : EMap),
      OracleNonNull O → ExtractedGood extracted →
      ∀ x ∈ (_resolve_params_with_lookups O question extracted).fst,
        x.snd.value.isNone = false) := by
  constructor
  · intro msg pds x hx
    exact extract_good_aux msg pds [] (by intro y hy; cases hy) x hx
  · intro O question extracted hO hE x hx
    exact resolveLoop_values O question extracted hO hE
      (orderedNames (dictKeys extracted)) [] (by intro y hy; cases hy) [] x hx

/-- An oracle whose customer search returns one option with a string
value. -/
def O_goodVal : Oracle :=
  { searchCustomers := fun _ _ => .ok [{ label := "Acme Corp Inc", value := Option.some "123" }],
    getList := fun _ _ _ _ => .ok [] }

/-- **C9** (witness): the amended theorem applied at a concrete oracle,
question and message; the customer entry it places in the final map has a
non-`None` value. -/
theorem C9_resolved_values_nonnull_witness :
    ("customerName", (⟨"Acme Corp Inc", Val.str "123", false⟩ : ResolvedParam))
        ∈ (_resolve_params_with_lookups O_goodVal custQuestion
            (extract_parameters "sentiment for Acme Corp" custQuestion.parameters)).fst ∧
    (ResolvedParam.mk "Acme Corp Inc" (Val.str "123") false).value.isNone = false := by
  have hmem : ("customerName", (⟨"Acme Corp Inc", Val.str "123", false⟩ : ResolvedParam))
      ∈ (_resolve_params_with_lookups O_goodVal custQuestion
          (extract_parameters "sentiment for Acme Corp" custQuestion.parameters)).fst := by
    rw [show (_resolve_params_with_lookups O_goodVal custQuestion
        (extract_parameters "sentiment for Acme Corp" custQuestion.parameters)).fst
      = [("customerName", (⟨"Acme Corp Inc", Val.str "123", false⟩ : ResolvedParam))] from rfl]
    exact List.mem_cons_self _ _
  refine ⟨hmem, ?_⟩
  exact C9_resolved_values_nonnull.2 O_goodVal custQuestion
    (extract_parameters "sentiment for Acme Corp" custQuestion.parameters)
    ⟨fun qid lbl opts h => by
        injection h with h
        intro o ho
        rw [← h] at ho
        simp only [List.mem_singleton] at ho
        rw [ho]
        rfl,
      fun ep me qid b opts h => by
        injection h with h
        intro o ho
        rw [← h] at ho
        simp at ho⟩
    (C9_resolved_values_nonnull.1 "sentiment for Acme Corp" custQuestion.parameters)
    _ hmem

end CxAssist
